import Mathlib

/-!
# Verification of the m-ohashi sugimoto-lab control/simulation code

Shallow embedding of the `pulse_control` and `fem_simulation` Python
packages, together with proofs about them.  Python floats are modelled by
`ℚ` (or `ℝ` for the continuous-mathematics claims), Python ints by `ℤ`/`ℕ`,
and `while` loops by fuel-indexed recursions (a result of `none` means the
loop has not terminated within the given fuel; divergence is expressed as
`none` for every fuel).
-/

/-- Python's built-in `round` (round half to even, "banker's rounding") on
exact rational inputs, as used by `round(x)` in the sources. -/
def pyRound (q : ℚ) : ℤ :=
  if q - ⌊q⌋ < 1/2 then ⌊q⌋
  else if 1/2 < q - ⌊q⌋ then ⌊q⌋ + 1
  else if 2 ∣ ⌊q⌋ then ⌊q⌋ else ⌊q⌋ + 1

/-- Python's `//` (floor division) on ints. -/
def pyFloorDiv (a b : ℤ) : ℤ := ⌊(a : ℚ) / (b : ℚ)⌋

theorem pyRound_intCast (n : ℤ) : pyRound n = n := by
  simp [pyRound]

theorem pyRound_le (q : ℚ) : (pyRound q : ℚ) ≤ q + 1/2 := by
  have hf := Int.floor_le q
  have hf' := Int.lt_floor_add_one q
  unfold pyRound
  split_ifs with h1 h2 h3 <;> push_cast <;> linarith

theorem le_pyRound (q : ℚ) : q - 1/2 ≤ (pyRound q : ℚ) := by
  have hf := Int.floor_le q
  have hf' := Int.lt_floor_add_one q
  unfold pyRound
  split_ifs with h1 h2 h3 <;> push_cast <;> linarith

namespace PulseControl

/-! ## `pulse_control/core.py`: delay list generation and the delay sweep -/

/-- `core._generate_delays`: `n = (stop - start) // step + 1`,
`[start + i * step for i in range(n)]` (Python `//` is floor division). -/
def generateDelays (start stop step : ℤ) : List ℤ :=
  let n : ℤ := pyFloorDiv (stop - start) step + 1
  (List.range n.toNat).map (fun i => start + i * step)

/-- One SCPI / control action issued during a sweep, abstracting the
instrument and progress-callback side effects of `core.py`. -/
inductive AwgCommand where
  | sleep (t : ℚ)
  | setTriggerDelay (channel : ℤ) (delay : ℤ)
  | setPulseWidth (channel : ℤ) (width : ℚ)
  | selectSegment (channel : ℤ) (index : ℕ)
  | progress (step total : ℕ)
deriving DecidableEq, Repr

/-- Fields of `config.BaseConfig` (floats as `ℚ`, ints as `ℤ`). -/
structure BaseConfig where
  visa_address : String
  v_on : ℚ
  v_off : ℚ
  frequency : ℚ
  trigger_delay : ℤ
  resolution_n : ℤ
deriving DecidableEq, Repr

/-- Fields of `config.DelaySweepConfig`. -/
structure DelaySweepConfig extends BaseConfig where
  pulse_width : ℚ
  delay_start : ℤ
  delay_stop : ℤ
  delay_step : ℤ
  wait_time : ℚ
  waveform_mode : String := "square"
  settling_time : ℚ := 0
deriving DecidableEq, Repr

/-- `core.run_delay_sweep` as the sequence of commands it issues: for each
delay a wait, a `:TRIGger:DELay` write per channel and one progress
callback, followed by a single final wait. -/
def runDelaySweep (c : DelaySweepConfig) (channels : List ℤ) : List AwgCommand :=
  let delays := generateDelays c.delay_start c.delay_stop c.delay_step
  let total := delays.length
  (delays.enum.flatMap fun id =>
    AwgCommand.sleep c.wait_time ::
      (channels.map (fun ch => AwgCommand.setTriggerDelay ch id.2) ++
        [AwgCommand.progress id.1 total]))
  ++ [AwgCommand.sleep c.wait_time]

theorem generateDelays_nil (start stop step : ℤ) (hstep : 0 < step)
    (hlt : stop < start) : generateDelays start stop step = [] := by
  have h2 : pyFloorDiv (stop - start) step ≤ -1 := by
    have hx : ((stop - start : ℤ) : ℚ) / (step : ℚ) < 0 := by
      apply div_neg_of_neg_of_pos
      · exact_mod_cast sub_neg.mpr hlt
      · exact_mod_cast hstep
    have : pyFloorDiv (stop - start) step < 0 := by
      unfold pyFloorDiv
      exact Int.floor_lt.mpr (by exact_mod_cast hx)
    omega
  unfold generateDelays
  have : (pyFloorDiv (stop - start) step + 1).toNat = 0 := by omega
  simp [this]

/-! ## `core._calc_arb_params`

The two `while` loops are modelled by fuel-indexed recursions.  A result of
`none` means the loop did not exit within `fuel` iterations; divergence of
the Python loop is expressed as `none` for every fuel. -/

/-- `while base_points * k < 320: k += 1` starting from `k`. -/
def loopK1 : ℕ → ℕ → ℕ → Option ℕ
  | 0, _, _ => none
  | fuel + 1, base, k => if base * k < 320 then loopK1 fuel base (k + 1) else some k

/-- `while pts % 32 != 0: k += 1; pts = base_points * k` starting from `k`. -/
def loopK2 : ℕ → ℕ → ℕ → Option ℕ
  | 0, _, _ => none
  | fuel + 1, base, k => if base * k % 32 ≠ 0 then loopK2 fuel base (k + 1) else some k

/-- `round(period * 1e12)` for `period = 1.0 / frequency`, as a natural
number (nonnegative for the positive frequencies the claims quantify over). -/
def psPeriodOf (frequency : ℚ) : ℕ := (pyRound (1 / frequency * 10^12)).natAbs

/-- `g`: the running `math.gcd` of the picosecond period and widths. -/
def gcdOf (frequency : ℚ) (widths : List ℚ) : ℕ :=
  widths.foldl (fun g w => Nat.gcd g (pyRound (w * 10^12)).natAbs) (psPeriodOf frequency)

/-- `base_points = ps_period // g`. -/
def basePointsOf (frequency : ℚ) (widths : List ℚ) : ℕ :=
  psPeriodOf frequency / gcdOf frequency widths

/-- `core._calc_arb_params(frequency, widths, resolution_n=n)`: returns
`some (.error msg)` for the `raise ValueError`, `some (.ok (sample_rate,
points_per_period))` on normal return, and `none` when a `while` loop does
not exit within `fuel` iterations. -/
def calcArbParams (fuel : ℕ) (frequency : ℚ) (widths : List ℚ) (resolution_n : ℕ) :
    Option (Except String (ℚ × ℕ)) :=
  let period := 1 / frequency
  let g := gcdOf frequency widths
  if g = 0 then some (.error "GCD is zero - check frequency and widths")
  else
    let base := psPeriodOf frequency / g
    match loopK1 fuel base 1 with
    | none => none
    | some k =>
      match loopK2 fuel base k with
      | none => none
      | some k2 =>
        let pts := base * k2 * resolution_n
        let time_per_point := period / (pts : ℚ)
        some (.ok (1 / time_per_point, pts))

/-- The Python function hangs: both loops keep running for every fuel. -/
def calcArbDiverges (frequency : ℚ) (widths : List ℚ) (resolution_n : ℕ) : Prop :=
  ∀ fuel, calcArbParams fuel frequency widths resolution_n = none

theorem loopK1_zero_base (fuel k : ℕ) : loopK1 fuel 0 k = none := by
  induction fuel generalizing k with
  | zero => rfl
  | succ n ih => simp [loopK1, ih]

theorem loopK1_spec (base : ℕ) :
    ∀ fuel k j₀, k ≤ j₀ → 320 ≤ base * j₀ → j₀ - k < fuel →
      ∃ j, loopK1 fuel base k = some j ∧ k ≤ j ∧ 320 ≤ base * j ∧
        ∀ i, k ≤ i → i < j → base * i < 320 := by
  intro fuel
  induction fuel with
  | zero => omega
  | succ n ih =>
    intro k j₀ hkj hj hlt
    by_cases hc : base * k < 320
    · have hkj' : k + 1 ≤ j₀ := by
        rcases Nat.eq_or_lt_of_le hkj with h | h
        · subst h; omega
        · omega
      obtain ⟨j, hj1, hj2, hj3, hj4⟩ := ih (k + 1) j₀ hkj' hj (by omega)
      refine ⟨j, ?_, by omega, hj3, ?_⟩
      · simp [loopK1, hc, hj1]
      · intro i hi1 hi2
        rcases Nat.eq_or_lt_of_le hi1 with h | h
        · subst h; exact hc
        · exact hj4 i h hi2
    · refine ⟨k, ?_, le_refl _, by omega, by omega⟩
      simp [loopK1, hc]

theorem loopK2_spec (base : ℕ) :
    ∀ fuel k j₀, k ≤ j₀ → base * j₀ % 32 = 0 → j₀ - k < fuel →
      ∃ j, loopK2 fuel base k = some j ∧ k ≤ j ∧ base * j % 32 = 0 ∧
        ∀ i, k ≤ i → i < j → base * i % 32 ≠ 0 := by
  intro fuel
  induction fuel with
  | zero => omega
  | succ n ih =>
    intro k j₀ hkj hj hlt
    by_cases hc : base * k % 32 ≠ 0
    · have hkj' : k + 1 ≤ j₀ := by
        rcases Nat.eq_or_lt_of_le hkj with h | h
        · subst h; omega
        · omega
      obtain ⟨j, hj1, hj2, hj3, hj4⟩ := ih (k + 1) j₀ hkj' hj (by omega)
      refine ⟨j, ?_, by omega, hj3, ?_⟩
      · simp only [loopK2, if_pos hc]; exact hj1
      · intro i hi1 hi2
        rcases Nat.eq_or_lt_of_le hi1 with h | h
        · subst h; exact hc
        · exact hj4 i h hi2
    · refine ⟨k, ?_, le_refl _, by omega, by omega⟩
      simp [loopK2, hc]

/-- The fold computing `g` divides its seed and every rounded width. -/
theorem gcd_fold_dvd : ∀ (l : List ℕ) (a : ℕ),
    l.foldl Nat.gcd a ∣ a ∧ ∀ x ∈ l, l.foldl Nat.gcd a ∣ x := by
  intro l
  induction l with
  | nil => intro a; simp
  | cons x xs ih =>
    intro a
    obtain ⟨h1, h2⟩ := ih (Nat.gcd a x)
    refine ⟨h1.trans (Nat.gcd_dvd_left a x), ?_⟩
    intro y hy
    rcases List.mem_cons.mp hy with h | h
    · rw [h]; exact h1.trans (Nat.gcd_dvd_right a x)
    · exact h2 y h

theorem gcdOf_eq_foldl (f : ℚ) (ws : List ℚ) :
    gcdOf f ws =
      (ws.map (fun w => (pyRound (w * 10^12)).natAbs)).foldl Nat.gcd (psPeriodOf f) := by
  rw [gcdOf, List.foldl_map]

theorem gcdOf_dvd_psPeriod (f : ℚ) (ws : List ℚ) : gcdOf f ws ∣ psPeriodOf f := by
  rw [gcdOf_eq_foldl]; exact (gcd_fold_dvd _ _).1

theorem gcdOf_dvd_width (f : ℚ) (ws : List ℚ) (w : ℚ) (hw : w ∈ ws) :
    gcdOf f ws ∣ (pyRound (w * 10^12)).natAbs := by
  rw [gcdOf_eq_foldl]
  exact (gcd_fold_dvd _ _).2 _ (List.mem_map_of_mem _ hw)

theorem gcdOf_ne_zero (f : ℚ) (ws : List ℚ) (hpsp : 0 < psPeriodOf f) :
    gcdOf f ws ≠ 0 := by
  intro h
  have := gcdOf_dvd_psPeriod f ws
  rw [h] at this
  omega

theorem basePointsOf_pos (f : ℚ) (ws : List ℚ) (hpsp : 0 < psPeriodOf f) :
    0 < basePointsOf f ws := by
  have hg := gcdOf_ne_zero f ws hpsp
  exact Nat.div_pos (Nat.le_of_dvd hpsp (gcdOf_dvd_psPeriod f ws)) (Nat.pos_of_ne_zero hg)

/-- Whenever the rounded picosecond period is nonzero, `_calc_arb_params`
terminates (any fuel ≥ 400) and returns `base_points * k * resolution_n`
points per period for the least multiplier `k` meeting the segment
constraints, together with `sample_rate = 1 / (period / points)`. -/
theorem calcArbParams_ok (f : ℚ) (ws : List ℚ) (n fuel : ℕ)
    (hfuel : 400 ≤ fuel) (hpsp : 0 < psPeriodOf f) :
    ∃ k, IsLeast {k : ℕ | 320 ≤ basePointsOf f ws * k ∧ 32 ∣ basePointsOf f ws * k} k ∧
      calcArbParams fuel f ws n =
        some (.ok (1 / (1 / f / ((basePointsOf f ws * k * n : ℕ) : ℚ)),
                   basePointsOf f ws * k * n)) := by
  have hg := gcdOf_ne_zero f ws hpsp
  have hbpos := basePointsOf_pos f ws hpsp
  obtain ⟨k1, hk1eq, hk1ge, hk1big, hk1min⟩ :=
    loopK1_spec (basePointsOf f ws) fuel 1 320 (by omega)
      (Nat.le_mul_of_pos_left 320 hbpos) (by omega)
  have hk1le : k1 ≤ 320 := by
    by_contra h
    push_neg at h
    have h1 := hk1min 320 (by omega) h
    have h2 : 320 ≤ basePointsOf f ws * 320 := Nat.le_mul_of_pos_left 320 hbpos
    omega
  obtain ⟨k2, hk2eq, hk2ge, hk2mod, hk2min⟩ :=
    loopK2_spec (basePointsOf f ws) fuel k1 (32 * ((k1 + 31) / 32)) (by omega)
      (by
        have : basePointsOf f ws * (32 * ((k1 + 31) / 32)) =
            32 * (basePointsOf f ws * ((k1 + 31) / 32)) := by ring
        rw [this]
        exact Nat.mul_mod_right 32 _)
      (by omega)
  refine ⟨k2, ⟨⟨?_, ?_⟩, ?_⟩, ?_⟩
  · calc 320 ≤ basePointsOf f ws * k1 := hk1big
      _ ≤ basePointsOf f ws * k2 := mul_le_mul_left' hk2ge _
  · exact Nat.dvd_of_mod_eq_zero hk2mod
  · intro b hb
    obtain ⟨hb1, hb2⟩ := hb
    have hb0 : 1 ≤ b := by
      rcases Nat.eq_zero_or_pos b with h | h
      · subst h; simp at hb1
      · omega
    have hbk1 : k1 ≤ b := by
      by_contra h
      push_neg at h
      have := hk1min b hb0 h
      omega
    by_contra h
    push_neg at h
    obtain ⟨c, hc⟩ := hb2
    exact hk2min b hbk1 h (by rw [hc]; exact Nat.mul_mod_right 32 c)
  · have hrfl : calcArbParams fuel f ws n =
        (if gcdOf f ws = 0 then some (.error "GCD is zero - check frequency and widths")
         else
           match loopK1 fuel (basePointsOf f ws) 1 with
           | none => none
           | some k =>
             match loopK2 fuel (basePointsOf f ws) k with
             | none => none
             | some k2 =>
               some (.ok (1 / (1 / f / ((basePointsOf f ws * k2 * n : ℕ) : ℚ)),
                          basePointsOf f ws * k2 * n))) := rfl
    rw [hrfl, if_neg hg, hk1eq]
    dsimp only
    rw [hk2eq]

theorem psPeriod_eq_gcd_mul_base (f : ℚ) (ws : List ℚ) :
    psPeriodOf f = gcdOf f ws * basePointsOf f ws := by
  rw [basePointsOf]
  exact (Nat.mul_div_cancel' (gcdOf_dvd_psPeriod f ws)).symm

theorem calcArbParams_not_error (fuel : ℕ) (f : ℚ) (ws : List ℚ) (n : ℕ)
    (hg : gcdOf f ws ≠ 0) (m : String) :
    calcArbParams fuel f ws n ≠ some (.error m) := by
  have hrfl : calcArbParams fuel f ws n =
      (if gcdOf f ws = 0 then some (.error "GCD is zero - check frequency and widths")
       else
         match loopK1 fuel (basePointsOf f ws) 1 with
         | none => none
         | some k =>
           match loopK2 fuel (basePointsOf f ws) k with
           | none => none
           | some k2 =>
             some (.ok (1 / (1 / f / ((basePointsOf f ws * k2 * n : ℕ) : ℚ)),
                        basePointsOf f ws * k2 * n))) := rfl
  rw [hrfl, if_neg hg]
  cases h1 : loopK1 fuel (basePointsOf f ws) 1 with
  | none => simp [h1]
  | some k =>
    cases h2 : loopK2 fuel (basePointsOf f ws) k with
    | none => simp [h1, h2]
    | some k2 => simp [h1, h2]

theorem calcArbParams_diverges_of_psPeriod_zero (f : ℚ) (ws : List ℚ) (n : ℕ)
    (hpsp : psPeriodOf f = 0) (hg : gcdOf f ws ≠ 0) :
    calcArbDiverges f ws n := by
  intro fuel
  have hb : basePointsOf f ws = 0 := by
    rw [basePointsOf, hpsp]
    exact Nat.zero_div _
  have hrfl : calcArbParams fuel f ws n =
      (if gcdOf f ws = 0 then some (.error "GCD is zero - check frequency and widths")
       else
         match loopK1 fuel (basePointsOf f ws) 1 with
         | none => none
         | some k =>
           match loopK2 fuel (basePointsOf f ws) k with
           | none => none
           | some k2 =>
             some (.ok (1 / (1 / f / ((basePointsOf f ws * k2 * n : ℕ) : ℚ)),
                        basePointsOf f ws * k2 * n))) := rfl
  rw [hrfl, if_neg hg, hb, loopK1_zero_base]

/-- C3, counterexample: at `frequency = 1e13`, `widths = [1e-12]` the
rounded picosecond period is `round(0.1) = 0` while the width rounds to
`1`, so the GCD is `1 ≠ 0` (no `InvalidInput`), but `base_points = 0`, and
`_calc_arb_params` neither raises nor returns: the `while base_points * k <
320` loop never exits (modelled as `none` for every fuel), contradicting
the claimed unconditional return value. -/
theorem psPeriodOf_ce : psPeriodOf (10^13 : ℚ) = 0 := by
  have h : (1 : ℚ) / 10^13 * 10^12 = 1/10 := by norm_num
  rw [psPeriodOf, h, pyRound]
  norm_num

theorem gcdOf_ce : gcdOf (10^13 : ℚ) [1/10^12] = 1 := by
  have h : (1 : ℚ) / 10^12 * 10^12 = 1 := by norm_num
  rw [gcdOf, List.foldl_cons, List.foldl_nil, psPeriodOf_ce, h, pyRound]
  norm_num

theorem calc_arb_params_counterexample :
    gcdOf (10^13 : ℚ) [1/10^12] ≠ 0 ∧ basePointsOf (10^13 : ℚ) [1/10^12] = 0 ∧
    calcArbDiverges (10^13 : ℚ) [1/10^12] 1 := by
  refine ⟨by rw [gcdOf_ce]; omega, ?_, ?_⟩
  · rw [basePointsOf, psPeriodOf_ce]
    exact Nat.zero_div _
  · exact calcArbParams_diverges_of_psPeriod_zero _ _ _ psPeriodOf_ce
      (by rw [gcdOf_ce]; omega)

/-- C3 (amended): `_calc_arb_params` raises `InvalidInput` iff the GCD of
the rounded-picosecond period and widths is zero; *provided the rounded
picosecond period is nonzero*, it terminates and returns `points_per_period
= resolution_n * (base_points * k)` for the smallest `k` with
`base_points * k ≥ 320` and `32 ∣ base_points * k`, with `sample_rate =
points_per_period * frequency`; the result is ≥ 320, a multiple of 32, the
time per point divides every width at picosecond precision, and doubling
`resolution_n` doubles both outputs.  When the rounded period is zero but
the GCD is not, the function diverges instead of returning. -/
theorem calc_arb_params_amended :
    (∀ (fuel : ℕ) (f : ℚ) (ws : List ℚ) (n : ℕ),
      (∃ m, calcArbParams fuel f ws n = some (.error m)) ↔ gcdOf f ws = 0) ∧
    (∀ (f : ℚ) (ws : List ℚ) (n fuel : ℕ), 0 < f → 1 ≤ n → 400 ≤ fuel →
      0 < psPeriodOf f →
      ∃ k, IsLeast {k : ℕ | 320 ≤ basePointsOf f ws * k ∧ 32 ∣ basePointsOf f ws * k} k ∧
        calcArbParams fuel f ws n =
          some (.ok (((basePointsOf f ws * k * n : ℕ) : ℚ) * f,
                     basePointsOf f ws * k * n)) ∧
        320 ≤ basePointsOf f ws * k * n ∧
        32 ∣ basePointsOf f ws * k * n ∧
        (∀ w ∈ ws,
          (psPeriodOf f : ℤ) ∣ pyRound (w * 10^12) * ((basePointsOf f ws * k * n : ℕ) : ℤ)) ∧
        calcArbParams fuel f ws (2 * n) =
          some (.ok ((2 : ℚ) * (((basePointsOf f ws * k * n : ℕ) : ℚ) * f),
                     2 * (basePointsOf f ws * k * n)))) ∧
    (∀ (f : ℚ) (ws : List ℚ) (n : ℕ), psPeriodOf f = 0 → gcdOf f ws ≠ 0 →
      calcArbDiverges f ws n) := by
  refine ⟨?_, ?_, fun f ws n h1 h2 => calcArbParams_diverges_of_psPeriod_zero f ws n h1 h2⟩
  · intro fuel f ws n
    constructor
    · rintro ⟨m, hm⟩
      by_contra hg
      exact calcArbParams_not_error fuel f ws n hg m hm
    · intro hg
      refine ⟨"GCD is zero - check frequency and widths", ?_⟩
      simp [calcArbParams, hg]
  · intro f ws n fuel hf hn hfuel hpsp
    obtain ⟨k, hleast, heq⟩ := calcArbParams_ok f ws n fuel hfuel hpsp
    have hkpos : 0 < basePointsOf f ws * k := by
      have := hleast.1.1
      omega
    have hpts : 320 ≤ basePointsOf f ws * k * n := by
      calc 320 ≤ basePointsOf f ws * k := hleast.1.1
        _ = basePointsOf f ws * k * 1 := (mul_one _).symm
        _ ≤ basePointsOf f ws * k * n := mul_le_mul_left' hn _
    have hptsne : ((basePointsOf f ws * k * n : ℕ) : ℚ) ≠ 0 := by
      have : 0 < basePointsOf f ws * k * n := by omega
      exact_mod_cast Nat.pos_iff_ne_zero.mp this
    have hfne : f ≠ 0 := ne_of_gt hf
    have hrate : 1 / (1 / f / ((basePointsOf f ws * k * n : ℕ) : ℚ)) =
        ((basePointsOf f ws * k * n : ℕ) : ℚ) * f := by
      field_simp
      ring
    rw [hrate] at heq
    refine ⟨k, hleast, heq, hpts, (hleast.1.2).mul_right n, ?_, ?_⟩
    · intro w hw
      obtain ⟨w', hw'⟩ := gcdOf_dvd_width f ws w hw
      apply Int.natAbs_dvd_natAbs.mp
      rw [Int.natAbs_mul]
      simp only [Int.natAbs_ofNat]
      rw [psPeriod_eq_gcd_mul_base f ws, hw']
      exact ⟨w' * (k * n), by ring⟩
    · obtain ⟨k', hleast', heq'⟩ := calcArbParams_ok f ws (2 * n) fuel hfuel hpsp
      have hkk : k' = k := hleast'.unique hleast
      subst hkk
      have h2pts : basePointsOf f ws * k' * (2 * n) = 2 * (basePointsOf f ws * k' * n) := by
        ring
      rw [h2pts] at heq'
      have hrate' : 1 / (1 / f / ((2 * (basePointsOf f ws * k' * n) : ℕ) : ℚ)) =
          (2 : ℚ) * (((basePointsOf f ws * k' * n : ℕ) : ℚ) * f) := by
        have h2 : ((2 * (basePointsOf f ws * k' * n) : ℕ) : ℚ) =
            2 * ((basePointsOf f ws * k' * n : ℕ) : ℚ) := by push_cast; ring
        rw [h2]
        field_simp
        ring
      rw [hrate'] at heq'
      exact heq'

theorem psPeriodOf_wit : psPeriodOf (10^7 : ℚ) = 100000 := by
  have h : (1 : ℚ) / 10^7 * 10^12 = 100000 := by norm_num
  rw [psPeriodOf, h, pyRound]
  norm_num

/-- Witness for the amended C3 theorem at the spec's example
`calc_arb_params(1e7, [1e-8])`. -/
theorem calc_arb_params_amended_witness :
    (0 : ℚ) < 10^7 ∧ (1 : ℕ) ≤ 1 ∧ (400 : ℕ) ≤ 400 ∧ 0 < psPeriodOf (10^7 : ℚ) ∧
    (∃ k, IsLeast {k : ℕ | 320 ≤ basePointsOf (10^7 : ℚ) [1/10^8] * k ∧
          32 ∣ basePointsOf (10^7 : ℚ) [1/10^8] * k} k ∧
        calcArbParams 400 (10^7 : ℚ) [1/10^8] 1 =
          some (.ok (((basePointsOf (10^7 : ℚ) [1/10^8] * k * 1 : ℕ) : ℚ) * 10^7,
                     basePointsOf (10^7 : ℚ) [1/10^8] * k * 1)) ∧
        320 ≤ basePointsOf (10^7 : ℚ) [1/10^8] * k * 1 ∧
        32 ∣ basePointsOf (10^7 : ℚ) [1/10^8] * k * 1 ∧
        (∀ w ∈ [(1 : ℚ)/10^8],
          (psPeriodOf (10^7 : ℚ) : ℤ) ∣ pyRound (w * 10^12) *
            ((basePointsOf (10^7 : ℚ) [1/10^8] * k * 1 : ℕ) : ℤ)) ∧
        calcArbParams 400 (10^7 : ℚ) [1/10^8] (2 * 1) =
          some (.ok ((2 : ℚ) * (((basePointsOf (10^7 : ℚ) [1/10^8] * k * 1 : ℕ) : ℚ) * 10^7),
                     2 * (basePointsOf (10^7 : ℚ) [1/10^8] * k * 1)))) := by
  have hps : 0 < psPeriodOf (10^7 : ℚ) := by rw [psPeriodOf_wit]; omega
  exact ⟨by norm_num, le_rfl, le_rfl, hps,
    calc_arb_params_amended.2.1 (10^7 : ℚ) [1/10^8] 1 400 (by norm_num) le_rfl le_rfl hps⟩

/-! ## `config.py`: sweep configurations and `validate`

Error messages are represented by an inductive type, one constructor per
`errors.append(...)` site, carrying the interpolated values. -/

inductive ValidationError where
  | frequencyNotPositive
  | triggerDelayNegative
  | triggerDelayNotMult8
  | amplitudeOutOfRange (ampl : ℚ)
  | offsetOutOfRange (offs : ℚ)
  | pulseWidthNotPositive
  | widthStartNotPositive
  | widthStopNotPositive
  | widthStepNotPositive
  | waitTimeNegative
  | settlingTimeNegative
  | triggerDelayStopNegative
  | triggerDelayStopNotMult8
  | delayInterpInvalid (s : String)
  | waveformModeInvalid (s : String)
  | squarePolarity
  | dutyCycleOutOfRange (dcycle width : ℚ)
  | delayStartNegative
  | delayStopNegative
  | delayStepNotPositive
  | delayFieldNotMult8 (name : String)
  | arbSampleRateOutOfRange (rate : ℚ)
  | arbSegmentTooShort (pts : ℕ)
  | arbSegmentNotMult32 (pts : ℕ)
  | arbParameterError (msg : String)
deriving DecidableEq, Repr

/-- `BaseConfig._validate_common`. -/
def validateCommon (c : BaseConfig) : List ValidationError :=
  (if c.frequency ≤ 0 then [.frequencyNotPositive] else []) ++
  (if c.trigger_delay < 0 then [.triggerDelayNegative] else []) ++
  (if c.trigger_delay % 8 ≠ 0 then [.triggerDelayNotMult8] else []) ++
  (if |c.v_on - c.v_off| / 2 < 1/20 ∨ 2 < |c.v_on - c.v_off| / 2
    then [.amplitudeOutOfRange (|c.v_on - c.v_off| / 2)] else []) ++
  (if 3/2 < |(c.v_on + c.v_off) / 4|
    then [.offsetOutOfRange ((c.v_on + c.v_off) / 4)] else [])

/-- Fields of `config.SweepConfig`.  The `delay_exponent` field is read by
`core.run_sweep` and set by the UI; the `SweepConfig` dataclass in the
given `config.py` does not declare it.  Modelled from the spec: a
configured exponent with default `1.0` (restricted to integer exponents,
which keeps `pw ** n` rational). -/
structure SweepConfig extends BaseConfig where
  width_start : ℚ
  width_stop : ℚ
  width_step : ℚ
  wait_time : ℚ
  waveform_mode : String := "square"
  settling_time : ℚ := 0
  trigger_delay_stop : Option ℤ := none
  delay_interp : String := "linear"
  delay_exponent : ℤ := 1
deriving DecidableEq, Repr

/-- `core._generate_widths`. -/
def generateWidths (start stop step : ℚ) : List ℚ :=
  let n : ℤ := pyRound ((stop - start) / step) + 1
  (List.range n.toNat).map
    (fun i : ℕ => (pyRound ((start + (i : ℚ) * step) * 10^10) : ℚ) / 10^10)

/-- The error list built by `SweepConfig.validate` before the
arbitrary-mode block. -/
def sweepErrorsPre (c : SweepConfig) : List ValidationError :=
  validateCommon c.toBaseConfig ++
  (if c.width_start ≤ 0 then [.widthStartNotPositive] else []) ++
  (if c.width_stop ≤ 0 then [.widthStopNotPositive] else []) ++
  (if c.width_step ≤ 0 then [.widthStepNotPositive] else []) ++
  (if c.wait_time < 0 then [.waitTimeNegative] else []) ++
  (if c.settling_time < 0 then [.settlingTimeNegative] else []) ++
  (match c.trigger_delay_stop with
    | none => []
    | some ds =>
      (if ds < 0 then [.triggerDelayStopNegative] else []) ++
      (if ds % 8 ≠ 0 then [.triggerDelayStopNotMult8] else [])) ++
  (if c.delay_interp ≠ "linear" ∧ c.delay_interp ≠ "inverse_width"
    then [.delayInterpInvalid c.delay_interp] else []) ++
  (if c.waveform_mode ≠ "square" ∧ c.waveform_mode ≠ "arbitrary"
    then [.waveformModeInvalid c.waveform_mode] else []) ++
  (if c.waveform_mode = "square" ∧ c.v_on < c.v_off then [.squarePolarity] else []) ++
  ([c.width_start, c.width_stop].flatMap fun w =>
    if w * c.frequency * 100 < 1/10 ∨ 999/10 < w * c.frequency * 100
      then [.dutyCycleOutOfRange (w * c.frequency * 100) w] else [])

/-- The checks appended by the arbitrary-mode block once
`_calc_arb_params` has returned. -/
def arbChecks (rate : ℚ) (pts : ℕ) : List ValidationError :=
  (if rate < 10^7 ∨ (42 : ℚ)/10 * 10^9 < rate then [.arbSampleRateOutOfRange rate] else []) ++
  (if pts < 320 then [.arbSegmentTooShort pts] else []) ++
  (if pts % 32 ≠ 0 then [.arbSegmentNotMult32 pts] else [])

/-- `SweepConfig.validate` (`none` = the arbitrary-mode
`_calc_arb_params` call did not terminate within `fuel`). -/
def SweepConfig.validate (fuel : ℕ) (c : SweepConfig) : Option (List ValidationError) :=
  if c.waveform_mode = "arbitrary" then
    match calcArbParams fuel c.frequency
        (generateWidths c.width_start c.width_stop c.width_step) 1 with
    | none => none
    | some (.error msg) => some (sweepErrorsPre c ++ [.arbParameterError msg])
    | some (.ok (rate, pts)) => some (sweepErrorsPre c ++ arbChecks rate pts)
  else some (sweepErrorsPre c)

/-- The error list built by `DelaySweepConfig.validate` before the
arbitrary-mode block. -/
def delaySweepErrorsPre (c : DelaySweepConfig) : List ValidationError :=
  validateCommon c.toBaseConfig ++
  (if c.pulse_width ≤ 0 then [.pulseWidthNotPositive] else []) ++
  (if c.waveform_mode ≠ "square" ∧ c.waveform_mode ≠ "arbitrary"
    then [.waveformModeInvalid c.waveform_mode] else []) ++
  (if c.waveform_mode = "square" ∧ c.v_on < c.v_off then [.squarePolarity] else []) ++
  (if c.delay_start < 0 then [.delayStartNegative] else []) ++
  (if c.delay_stop < 0 then [.delayStopNegative] else []) ++
  (if c.delay_step ≤ 0 then [.delayStepNotPositive] else []) ++
  ([("delay_start", c.delay_start), ("delay_stop", c.delay_stop),
    ("delay_step", c.delay_step)].flatMap fun p =>
    if p.2 % 8 ≠ 0 then [.delayFieldNotMult8 p.1] else []) ++
  (if c.wait_time < 0 then [.waitTimeNegative] else []) ++
  (if c.settling_time < 0 then [.settlingTimeNegative] else []) ++
  (if 0 < c.frequency ∧ 0 < c.pulse_width then
    (if c.pulse_width * c.frequency * 100 < 1/10 ∨
        999/10 < c.pulse_width * c.frequency * 100
      then [.dutyCycleOutOfRange (c.pulse_width * c.frequency * 100) c.pulse_width]
      else [])
    else [])

/-- `DelaySweepConfig.validate`. -/
def DelaySweepConfig.validate (fuel : ℕ) (c : DelaySweepConfig) :
    Option (List ValidationError) :=
  if c.waveform_mode = "arbitrary" then
    match calcArbParams fuel c.frequency [c.pulse_width] 1 with
    | none => none
    | some (.error msg) => some (delaySweepErrorsPre c ++ [.arbParameterError msg])
    | some (.ok (rate, pts)) => some (delaySweepErrorsPre c ++ arbChecks rate pts)
  else some (delaySweepErrorsPre c)

/-! ## `core.run_sweep`: pulse-width sweep with optional delay interpolation -/

/-- `sweep_delay = delay_stop is not None and delay_stop != delay_start`. -/
def sweepDelayActive (c : SweepConfig) : Bool :=
  match c.trigger_delay_stop with
  | none => false
  | some ds => decide (ds ≠ c.trigger_delay)

/-- The coefficients `(_coeff_a, _coeff_b)` of `delay(pw) = a * pw^n + b`
pre-computed by `run_sweep` (zero when the fit is skipped). -/
def fitCoeffs (c : SweepConfig) : ℚ × ℚ :=
  if sweepDelayActive c then
    let fs := c.width_start ^ c.delay_exponent
    let fp := c.width_stop ^ c.delay_exponent
    if fs ≠ fp then
      let a := ((c.trigger_delay : ℚ) - ((c.trigger_delay_stop.getD c.trigger_delay : ℤ) : ℚ)) /
        (fs - fp)
      (a, (c.trigger_delay : ℚ) - a * fs)
    else (0, 0)
  else (0, 0)

/-- `raw = _coeff_a * widths[i] ** _exp + _coeff_b`. -/
def rawDelayAt (c : SweepConfig) (w : ℚ) : ℚ :=
  (fitCoeffs c).1 * w ^ c.delay_exponent + (fitCoeffs c).2

/-- `delay = round(raw / 8) * 8`. -/
def appliedDelayAt (c : SweepConfig) (w : ℚ) : ℤ :=
  pyRound (rawDelayAt c w / 8) * 8

/-- The commands issued by `_apply_delay(i)`. -/
def applyDelayCmds (c : SweepConfig) (channels : List ℤ) (w : ℚ) : List AwgCommand :=
  if sweepDelayActive c then
    channels.map (fun ch => AwgCommand.setTriggerDelay ch (appliedDelayAt c w))
  else []

/-- `core.run_sweep` as the sequence of commands it issues. -/
def runSweep (c : SweepConfig) (channels : List ℤ) : List AwgCommand :=
  let widths := generateWidths c.width_start c.width_stop c.width_step
  let total := widths.length
  if c.waveform_mode = "arbitrary" then
    ((List.range total).flatMap fun i =>
      AwgCommand.sleep c.wait_time ::
        (applyDelayCmds c channels (widths.getD i 0) ++
          channels.map (fun ch => AwgCommand.selectSegment ch i) ++
          [AwgCommand.progress i total]))
    ++ [AwgCommand.sleep c.wait_time]
  else
    (widths.enum.flatMap fun iw =>
      AwgCommand.sleep c.wait_time ::
        (applyDelayCmds c channels iw.2 ++
          channels.map (fun ch => AwgCommand.setPulseWidth ch iw.2) ++
          [AwgCommand.progress iw.1 total]))
    ++ [AwgCommand.sleep c.wait_time]

theorem mem_applyDelayCmds {c : SweepConfig} {channels : List ℤ} {w : ℚ} {ch : ℤ} {d : ℤ}
    (h : AwgCommand.setTriggerDelay ch d ∈ applyDelayCmds c channels w) :
    d = appliedDelayAt c w := by
  unfold applyDelayCmds at h
  split_ifs at h
  · obtain ⟨x, _, hx⟩ := List.mem_map.mp h
    cases hx
    rfl
  · simp at h

theorem setTriggerDelay_mem_runSweep {c : SweepConfig} {channels : List ℤ} {ch d : ℤ}
    (h : AwgCommand.setTriggerDelay ch d ∈ runSweep c channels) :
    ∃ w ∈ generateWidths c.width_start c.width_stop c.width_step,
      d = appliedDelayAt c w := by
  unfold runSweep at h
  split_ifs at h
  · rcases List.mem_append.mp h with h | h
    · obtain ⟨i, hi, hmem⟩ := List.mem_flatMap.mp h
      rcases List.mem_cons.mp hmem with h' | h'
      · exact absurd h' (by simp)
      rcases List.mem_append.mp h' with h'' | h''
      · rcases List.mem_append.mp h'' with h3 | h3
        · have hilt : i < (generateWidths c.width_start c.width_stop c.width_step).length :=
            List.mem_range.mp hi
          refine ⟨(generateWidths c.width_start c.width_stop c.width_step).getD i 0, ?_, ?_⟩
          · rw [List.getD_eq_getElem _ _ hilt]
            exact List.getElem_mem _
          · exact mem_applyDelayCmds h3
        · obtain ⟨x, _, hx⟩ := List.mem_map.mp h3
          cases hx
      · simp at h''
    · simp at h
  · rcases List.mem_append.mp h with h | h
    · obtain ⟨iw, hiw, hmem⟩ := List.mem_flatMap.mp h
      rcases List.mem_cons.mp hmem with h' | h'
      · exact absurd h' (by simp)
      rcases List.mem_append.mp h' with h'' | h''
      · rcases List.mem_append.mp h'' with h3 | h3
        · refine ⟨iw.2, ?_, mem_applyDelayCmds h3⟩
          obtain ⟨hlt, heq⟩ := List.getElem?_eq_some.mp (List.mem_enum_iff_getElem?.mp hiw)
          exact heq ▸ List.getElem_mem hlt
        · obtain ⟨x, _, hx⟩ := List.mem_map.mp h3
          cases hx
      · simp at h''
    · simp at h

/-- The spec's delay-interpolation scenario: width 1e-8 → 5e-8 step 1e-8,
trigger delay 0 → 80, exponent 1. -/
def exC4Config : SweepConfig where
  visa_address := ""
  v_on := 1
  v_off := 0
  frequency := 10^6
  trigger_delay := 0
  resolution_n := 1
  width_start := 1/10^8
  width_stop := 5/10^8
  width_step := 1/10^8
  wait_time := 0
  trigger_delay_stop := some 80
  delay_exponent := 1

theorem exC4_widths :
    generateWidths exC4Config.width_start exC4Config.width_stop exC4Config.width_step =
      [1/10^8, 2/10^8, 3/10^8, 4/10^8, 5/10^8] := by
  have hn : pyRound ((exC4Config.width_stop - exC4Config.width_start) /
      exC4Config.width_step) + 1 = (5 : ℤ) := by
    have h4 : (exC4Config.width_stop - exC4Config.width_start) / exC4Config.width_step =
        ((4 : ℤ) : ℚ) := by
      show ((5 : ℚ)/10^8 - 1/10^8) / (1/10^8) = ((4 : ℤ) : ℚ)
      norm_num
    rw [h4, pyRound_intCast]
    norm_num
  unfold generateWidths
  rw [hn]
  show (List.range 5).map _ = _
  have hr : List.range 5 = [0, 1, 2, 3, 4] := rfl
  rw [hr]
  simp only [List.map_cons, List.map_nil]
  have e0 : ((exC4Config.width_start + (0 : ℕ) * exC4Config.width_step) * 10^10) = ((100 : ℤ) : ℚ) := by
    show ((1 : ℚ)/10^8 + (0 : ℕ) * (1/10^8)) * 10^10 = ((100 : ℤ) : ℚ); norm_num
  have e1 : ((exC4Config.width_start + (1 : ℕ) * exC4Config.width_step) * 10^10) = ((200 : ℤ) : ℚ) := by
    show ((1 : ℚ)/10^8 + (1 : ℕ) * (1/10^8)) * 10^10 = ((200 : ℤ) : ℚ); norm_num
  have e2 : ((exC4Config.width_start + (2 : ℕ) * exC4Config.width_step) * 10^10) = ((300 : ℤ) : ℚ) := by
    show ((1 : ℚ)/10^8 + (2 : ℕ) * (1/10^8)) * 10^10 = ((300 : ℤ) : ℚ); norm_num
  have e3 : ((exC4Config.width_start + (3 : ℕ) * exC4Config.width_step) * 10^10) = ((400 : ℤ) : ℚ) := by
    show ((1 : ℚ)/10^8 + (3 : ℕ) * (1/10^8)) * 10^10 = ((400 : ℤ) : ℚ); norm_num
  have e4 : ((exC4Config.width_start + (4 : ℕ) * exC4Config.width_step) * 10^10) = ((500 : ℤ) : ℚ) := by
    show ((1 : ℚ)/10^8 + (4 : ℕ) * (1/10^8)) * 10^10 = ((500 : ℤ) : ℚ); norm_num
  rw [e0, e1, e2, e3, e4]
  simp only [pyRound_intCast]
  norm_num

theorem exC4_coeffs : fitCoeffs exC4Config = (2 * 10^9, -20) := by
  have hact : sweepDelayActive exC4Config = true := by
    unfold sweepDelayActive exC4Config
    norm_num
  have hne : exC4Config.width_start ^ exC4Config.delay_exponent ≠
      exC4Config.width_stop ^ exC4Config.delay_exponent := by
    show ((1 : ℚ)/10^8) ^ (1 : ℤ) ≠ ((5 : ℚ)/10^8) ^ (1 : ℤ)
    norm_num
  unfold fitCoeffs
  rw [hact]
  simp only [if_true, if_pos hne]
  have h1 : exC4Config.width_start ^ exC4Config.delay_exponent = (1 : ℚ)/10^8 := by
    show ((1 : ℚ)/10^8) ^ (1 : ℤ) = (1 : ℚ)/10^8
    norm_num
  have h2 : exC4Config.width_stop ^ exC4Config.delay_exponent = (5 : ℚ)/10^8 := by
    show ((5 : ℚ)/10^8) ^ (1 : ℤ) = (5 : ℚ)/10^8
    norm_num
  have h3 : ((exC4Config.trigger_delay_stop.getD exC4Config.trigger_delay : ℤ) : ℚ) = 80 := rfl
  have h4 : ((exC4Config.trigger_delay : ℤ) : ℚ) = 0 := rfl
  rw [h1, h2, h3, h4]
  norm_num

theorem exC4_applied (w : ℚ) :
    appliedDelayAt exC4Config w = pyRound ((2 * 10^9 * w - 20) / 8) * 8 := by
  unfold appliedDelayAt rawDelayAt
  rw [exC4_coeffs]
  have : (2 * 10^9 : ℚ) * w ^ ((1 : ℤ)) + -20 = 2 * 10^9 * w - 20 := by
    rw [zpow_one]; ring
  show pyRound ((2 * 10^9 * w ^ exC4Config.delay_exponent + -20) / 8) * 8 = _
  rw [show exC4Config.delay_exponent = (1 : ℤ) from rfl, this]

/-- C4: with a distinct `trigger_delay_stop` configured, `run_sweep` fits
`delay(pw) = a·pw^n + b` through `(width_start, trigger_delay)` and
`(width_stop, trigger_delay_stop)` (leaving `a = b = 0` when
`width_start^n = width_stop^n`), and every trigger delay applied to a
channel is the interpolated value rounded to the nearest multiple of 8; in
the spec's scenario the applied delays are `[0, 16, 40, 64, 80]`. -/
theorem run_sweep_delay_fit :
    (∀ (c : SweepConfig) (ds : ℤ), c.trigger_delay_stop = some ds →
      ds ≠ c.trigger_delay →
      (c.width_start ^ c.delay_exponent = c.width_stop ^ c.delay_exponent →
        fitCoeffs c = (0, 0)) ∧
      (c.width_start ^ c.delay_exponent ≠ c.width_stop ^ c.delay_exponent →
        rawDelayAt c c.width_start = c.trigger_delay ∧
        rawDelayAt c c.width_stop = ds)) ∧
    (∀ (c : SweepConfig) (channels : List ℤ) (ch d : ℤ),
      AwgCommand.setTriggerDelay ch d ∈ runSweep c channels →
      (8 : ℤ) ∣ d ∧
      ∃ w ∈ generateWidths c.width_start c.width_stop c.width_step,
        d = pyRound (rawDelayAt c w / 8) * 8) ∧
    appliedDelayAt exC4Config exC4Config.width_start = 0 ∧
    appliedDelayAt exC4Config exC4Config.width_stop = 80 ∧
    (generateWidths exC4Config.width_start exC4Config.width_stop
        exC4Config.width_step).map (appliedDelayAt exC4Config) = [0, 16, 40, 64, 80] := by
  refine ⟨?_, ?_, ?_, ?_, ?_⟩
  · intro c ds hds hne
    have hact : sweepDelayActive c = true := by
      unfold sweepDelayActive
      rw [hds]
      simp [hne]
    constructor
    · intro heq
      unfold fitCoeffs
      rw [hact]
      simp [heq]
    · intro hne2
      have hsub : c.width_start ^ c.delay_exponent - c.width_stop ^ c.delay_exponent ≠ 0 :=
        sub_ne_zero.mpr hne2
      have hgd : c.trigger_delay_stop.getD c.trigger_delay = ds := by rw [hds]; rfl
      unfold rawDelayAt fitCoeffs
      rw [hact]
      simp only [if_true, if_pos hne2, hgd]
      constructor
      · field_simp
      · field_simp
        ring
  · intro c channels ch d h
    obtain ⟨w, hw, hd⟩ := setTriggerDelay_mem_runSweep h
    exact ⟨⟨pyRound (rawDelayAt c w / 8), by rw [hd]; unfold appliedDelayAt; ring⟩,
      ⟨w, hw, hd⟩⟩
  · rw [exC4_applied]
    show pyRound ((2 * 10^9 * (1/10^8) - 20) / 8) * 8 = 0
    have h : ((2 : ℚ) * 10^9 * (1/10^8) - 20) / 8 = ((0 : ℤ) : ℚ) := by norm_num
    rw [h, pyRound_intCast]
    ring
  · rw [exC4_applied]
    show pyRound ((2 * 10^9 * (5/10^8) - 20) / 8) * 8 = 80
    have h : ((2 : ℚ) * 10^9 * (5/10^8) - 20) / 8 = ((10 : ℤ) : ℚ) := by norm_num
    rw [h, pyRound_intCast]
    ring
  · rw [exC4_widths]
    simp only [List.map_cons, List.map_nil, exC4_applied]
    have h0 : ((2 : ℚ) * 10^9 * (1/10^8) - 20) / 8 = ((0 : ℤ) : ℚ) := by norm_num
    have h1 : ((2 : ℚ) * 10^9 * (2/10^8) - 20) / 8 = (5 : ℚ)/2 := by norm_num
    have h2 : ((2 : ℚ) * 10^9 * (3/10^8) - 20) / 8 = ((5 : ℤ) : ℚ) := by norm_num
    have h3 : ((2 : ℚ) * 10^9 * (4/10^8) - 20) / 8 = (15 : ℚ)/2 := by norm_num
    have h4 : ((2 : ℚ) * 10^9 * (5/10^8) - 20) / 8 = ((10 : ℤ) : ℚ) := by norm_num
    rw [h0, h1, h2, h3, h4, pyRound_intCast, pyRound_intCast, pyRound_intCast]
    have hr1 : pyRound ((5 : ℚ)/2) = 2 := by
      unfold pyRound
      norm_num
    have hr3 : pyRound ((15 : ℚ)/2) = 8 := by
      unfold pyRound
      norm_num
    rw [hr1, hr3]
    norm_num

/-- Witness for C4 at the spec's scenario configuration. -/
theorem run_sweep_delay_fit_witness :
    exC4Config.trigger_delay_stop = some 80 ∧ (80 : ℤ) ≠ exC4Config.trigger_delay ∧
    ((exC4Config.width_start ^ exC4Config.delay_exponent =
        exC4Config.width_stop ^ exC4Config.delay_exponent →
      fitCoeffs exC4Config = (0, 0)) ∧
     (exC4Config.width_start ^ exC4Config.delay_exponent ≠
        exC4Config.width_stop ^ exC4Config.delay_exponent →
      rawDelayAt exC4Config exC4Config.width_start = exC4Config.trigger_delay ∧
      rawDelayAt exC4Config exC4Config.width_stop = (80 : ℤ))) :=
  ⟨rfl, by decide, run_sweep_delay_fit.1 exC4Config 80 rfl (by decide)⟩

/-- A delay-sweep configuration with `stop < start` (16 → 0 step 8) that
passes every `DelaySweepConfig.validate` check. -/
def exC10Config : DelaySweepConfig where
  visa_address := ""
  v_on := 1
  v_off := 0
  frequency := 1000
  trigger_delay := 0
  resolution_n := 1
  pulse_width := 1/10^4
  delay_start := 16
  delay_stop := 0
  delay_step := 8
  wait_time := 0

theorem exC10_validate (fuel : ℕ) :
    DelaySweepConfig.validate fuel exC10Config = some [] := by
  unfold DelaySweepConfig.validate
  rw [if_neg (by decide : ¬(exC10Config.waveform_mode = "arbitrary"))]
  have habs : |(1 : ℚ)/4| = 1/4 := abs_of_nonneg (by norm_num)
  unfold delaySweepErrorsPre validateCommon exC10Config
  norm_num [habs]

/-- C10: whenever `delay_step > 0` and `delay_stop < delay_start`,
`_generate_delays` returns the empty list, so `run_delay_sweep` issues no
trigger-delay command, invokes no progress callback, and performs only the
single final wait; and `DelaySweepConfig.validate` accepts such a
configuration (it never compares `delay_stop` against `delay_start`). -/
theorem run_delay_sweep_empty_range :
    (∀ (c : DelaySweepConfig) (channels : List ℤ), 0 < c.delay_step →
      c.delay_stop < c.delay_start →
      generateDelays c.delay_start c.delay_stop c.delay_step = [] ∧
      runDelaySweep c channels = [AwgCommand.sleep c.wait_time]) ∧
    (∀ fuel, DelaySweepConfig.validate fuel exC10Config = some []) ∧
    0 < exC10Config.delay_step ∧ exC10Config.delay_stop < exC10Config.delay_start := by
  refine ⟨?_, exC10_validate, by decide, by decide⟩
  intro c channels hstep hlt
  have hnil := generateDelays_nil c.delay_start c.delay_stop c.delay_step hstep hlt
  refine ⟨hnil, ?_⟩
  unfold runDelaySweep
  rw [hnil]
  rfl

/-- Witness for C10 at the concrete configuration. -/
theorem run_delay_sweep_empty_range_witness :
    0 < exC10Config.delay_step ∧ exC10Config.delay_stop < exC10Config.delay_start ∧
    (generateDelays exC10Config.delay_start exC10Config.delay_stop exC10Config.delay_step = [] ∧
      runDelaySweep exC10Config [1] = [AwgCommand.sleep exC10Config.wait_time]) :=
  ⟨by decide, by decide,
    run_delay_sweep_empty_range.1 exC10Config [1] (by decide) (by decide)⟩

/-! ## `core._generate_pulse_waveform` -/

/-- `on_points = round(points_per_period * duty_cycle / 100)`. -/
def onPointsOf (ppp : ℕ) (duty : ℚ) : ℤ := pyRound ((ppp : ℚ) * duty / 100)

/-- `start = (points_per_period - on_points) // 2`. -/
def startOf (ppp : ℕ) (duty : ℚ) : ℤ := pyFloorDiv ((ppp : ℤ) - onPointsOf ppp duty) 2

/-- `core._generate_pulse_waveform`: one period of DAC codes with the ON
region `[start, start + on_points)` (the numpy slice assignment, which for
the validated duty range satisfies `0 ≤ start ≤ start + on_points ≤
points_per_period`). -/
def generatePulseWaveform (ppp : ℕ) (duty : ℚ) (inverted : Bool) : List ℕ :=
  (List.range ppp).map fun i : ℕ =>
    if startOf ppp duty ≤ (i : ℤ) ∧ (i : ℤ) < startOf ppp duty + onPointsOf ppp duty
    then (if inverted then 0 else 4095)
    else (if inverted then 4095 else 0)

theorem floor_le_pyRound (q : ℚ) : ⌊q⌋ ≤ pyRound q := by
  unfold pyRound
  split_ifs <;> omega

theorem pyRound_le_floor_add_one (q : ℚ) : pyRound q ≤ ⌊q⌋ + 1 := by
  unfold pyRound
  split_ifs <;> omega

theorem countP_range_interval (a b : ℤ) (ha : 0 ≤ a) :
    ∀ n : ℕ, ((List.range n).countP fun i : ℕ => decide (a ≤ (i : ℤ) ∧ (i : ℤ) < b)) =
      (min b n - a).toNat := by
  intro n
  induction n with
  | zero =>
    simp only [List.range_zero, List.countP_nil, Nat.cast_zero]
    omega
  | succ n ih =>
    rw [List.range_succ, List.countP_append, ih]
    rcases Classical.em (a ≤ (n : ℤ) ∧ (n : ℤ) < b) with hp | hp
    · have hd : (decide (a ≤ (n : ℤ) ∧ (n : ℤ) < b)) = true := decide_eq_true hp
      simp only [List.countP_cons, List.countP_nil, hd, if_true]
      push_cast
      omega
    · have hd : (decide (a ≤ (n : ℤ) ∧ (n : ℤ) < b)) = false := decide_eq_false hp
      simp only [List.countP_cons, List.countP_nil, hd]
      push_cast
      omega

theorem pyFloorDiv_two_bounds (m : ℤ) :
    2 * pyFloorDiv m 2 ≤ m ∧ m - 2 < 2 * pyFloorDiv m 2 := by
  have hx : ((pyFloorDiv m 2 : ℤ) : ℚ) ≤ (m : ℚ) / ((2 : ℤ) : ℚ) := Int.floor_le _
  have hx2 : (m : ℚ) / ((2 : ℤ) : ℚ) < ((pyFloorDiv m 2 : ℤ) : ℚ) + 1 := Int.lt_floor_add_one _
  push_cast at hx hx2
  constructor
  · exact_mod_cast (by push_cast; linarith : ((2 * pyFloorDiv m 2 : ℤ) : ℚ) ≤ (m : ℚ))
  · exact_mod_cast (by push_cast; linarith : ((m - 2 : ℤ) : ℚ) < ((2 * pyFloorDiv m 2 : ℤ) : ℚ))

theorem waveform_getD (ppp : ℕ) (duty : ℚ) (inverted : Bool) (i : ℕ) (h : i < ppp) :
    (generatePulseWaveform ppp duty inverted).getD i 0 =
      if startOf ppp duty ≤ (i : ℤ) ∧ (i : ℤ) < startOf ppp duty + onPointsOf ppp duty
      then (if inverted then 0 else 4095)
      else (if inverted then 4095 else 0) := by
  unfold generatePulseWaveform
  rw [List.getD_eq_getElem _ _ (by simpa using h)]
  simp

/-- C5: for a positive period length and a duty in the validated range,
`_generate_pulse_waveform` returns `points_per_period` codes with an ON
region of exactly `round(points_per_period * duty / 100)` contiguous
samples placed centrally (the two margins differ by at most one point);
normal polarity uses ON = 4095 / OFF = 0, and `inverted=True` swaps the two
codes. -/
theorem generate_pulse_waveform_spec (ppp : ℕ) (duty : ℚ)
    (hppp : 0 < ppp) (hlo : 1/10 ≤ duty) (hhi : duty ≤ 999/10) :
    0 ≤ onPointsOf ppp duty ∧ (onPointsOf ppp duty) ≤ (ppp : ℤ) ∧
    0 ≤ startOf ppp duty ∧
    0 ≤ (ppp : ℤ) - onPointsOf ppp duty - 2 * startOf ppp duty ∧
    (ppp : ℤ) - onPointsOf ppp duty - 2 * startOf ppp duty ≤ 1 ∧
    (∀ inverted, (generatePulseWaveform ppp duty inverted).length = ppp) ∧
    ((generatePulseWaveform ppp duty false).countP fun v => decide (v = 4095)) =
      (onPointsOf ppp duty).toNat ∧
    (∀ i : ℕ, i < ppp →
      ((generatePulseWaveform ppp duty false).getD i 0 = 4095 ↔
        startOf ppp duty ≤ (i : ℤ) ∧ (i : ℤ) < startOf ppp duty + onPointsOf ppp duty)) ∧
    (∀ i : ℕ, i < ppp →
      (generatePulseWaveform ppp duty true).getD i 0 =
        4095 - (generatePulseWaveform ppp duty false).getD i 0) := by
  have hq0 : (0 : ℚ) ≤ (ppp : ℚ) * duty / 100 := by
    have : (0 : ℚ) ≤ (ppp : ℚ) := by positivity
    have h1 : (0 : ℚ) ≤ duty := le_trans (by norm_num) hlo
    positivity
  have hqlt : (ppp : ℚ) * duty / 100 < (ppp : ℚ) := by
    have hp : (0 : ℚ) < (ppp : ℚ) := by exact_mod_cast hppp
    calc (ppp : ℚ) * duty / 100 ≤ (ppp : ℚ) * (999/10) / 100 := by
          apply div_le_div_of_nonneg_right ?_ (by norm_num)
          · exact mul_le_mul_of_nonneg_left hhi (le_of_lt hp)
      _ < (ppp : ℚ) := by nlinarith
  have hon0 : 0 ≤ onPointsOf ppp duty := by
    have := floor_le_pyRound ((ppp : ℚ) * duty / 100)
    have h2 : 0 ≤ ⌊(ppp : ℚ) * duty / 100⌋ := Int.floor_nonneg.mpr hq0
    unfold onPointsOf
    omega
  have honle : onPointsOf ppp duty ≤ (ppp : ℤ) := by
    have h1 := pyRound_le_floor_add_one ((ppp : ℚ) * duty / 100)
    have h2 : ⌊(ppp : ℚ) * duty / 100⌋ < (ppp : ℤ) := by
      rw [Int.floor_lt]
      exact_mod_cast hqlt
    unfold onPointsOf
    omega
  have hstart2 := pyFloorDiv_two_bounds ((ppp : ℤ) - onPointsOf ppp duty)
  have hse : startOf ppp duty = pyFloorDiv ((ppp : ℤ) - onPointsOf ppp duty) 2 := rfl
  rw [← hse] at hstart2
  have hs0 : 0 ≤ startOf ppp duty := by
    unfold startOf pyFloorDiv
    apply Int.floor_nonneg.mpr
    apply div_nonneg
    · exact_mod_cast (by omega : (0 : ℤ) ≤ (ppp : ℤ) - onPointsOf ppp duty)
    · exact_mod_cast (by norm_num : (0 : ℤ) ≤ (2 : ℤ))
  refine ⟨hon0, honle, hs0, by omega, by omega, ?_, ?_, ?_, ?_⟩
  · intro inverted
    unfold generatePulseWaveform
    simp
  · have hwf : generatePulseWaveform ppp duty false =
        (List.range ppp).map (fun i : ℕ =>
          if startOf ppp duty ≤ (i : ℤ) ∧ (i : ℤ) < startOf ppp duty + onPointsOf ppp duty
          then (4095 : ℕ) else 0) := rfl
    rw [hwf, List.countP_map]
    have hfun : ∀ i : ℕ,
        ((fun v => decide (v = 4095)) ∘ fun i : ℕ =>
          if startOf ppp duty ≤ (i : ℤ) ∧ (i : ℤ) < startOf ppp duty + onPointsOf ppp duty
          then (4095 : ℕ) else 0) i =
        (fun i : ℕ => decide (startOf ppp duty ≤ (i : ℤ) ∧
          (i : ℤ) < startOf ppp duty + onPointsOf ppp duty)) i := by
      intro i
      by_cases h : startOf ppp duty ≤ (i : ℤ) ∧ (i : ℤ) < startOf ppp duty + onPointsOf ppp duty
      · simp [h]
      · simp [h]
    rw [funext hfun, countP_range_interval _ _ hs0]
    have hmin : min (startOf ppp duty + onPointsOf ppp duty) (ppp : ℤ) =
        startOf ppp duty + onPointsOf ppp duty := by omega
    rw [hmin]
    omega
  · intro i hi
    rw [waveform_getD ppp duty false i hi]
    by_cases h : startOf ppp duty ≤ (i : ℤ) ∧ (i : ℤ) < startOf ppp duty + onPointsOf ppp duty
    · simp [h]
    · simp [h]
  · intro i hi
    rw [waveform_getD ppp duty true i hi, waveform_getD ppp duty false i hi]
    by_cases h : startOf ppp duty ≤ (i : ℤ) ∧ (i : ℤ) < startOf ppp duty + onPointsOf ppp duty
    · simp [h]
    · simp [h]

/-- Witness for C5 at the spec's example `points_per_period = 1000`,
`duty = 50`: the ON region is 500 samples starting at index 250. -/
theorem generate_pulse_waveform_spec_witness :
    (0 : ℕ) < 1000 ∧ (1/10 : ℚ) ≤ 50 ∧ (50 : ℚ) ≤ 999/10 ∧
    onPointsOf 1000 50 = 500 ∧ startOf 1000 50 = 250 ∧
    ((generatePulseWaveform 1000 50 false).countP fun v => decide (v = 4095)) =
      (onPointsOf 1000 50).toNat := by
  have hon : onPointsOf 1000 50 = 500 := by
    have h : ((1000 : ℕ) : ℚ) * 50 / 100 = ((500 : ℤ) : ℚ) := by norm_num
    unfold onPointsOf
    rw [h, pyRound_intCast]
  have hst : startOf 1000 50 = 250 := by
    unfold startOf pyFloorDiv
    rw [hon]
    have h : ((((1000 : ℕ) : ℤ) - 500 : ℤ) : ℚ) / ((2 : ℤ) : ℚ) = ((250 : ℤ) : ℚ) := by
      norm_num
    rw [h, Int.floor_intCast]
  exact ⟨by norm_num, by norm_num, by norm_num, hon, hst,
    (generate_pulse_waveform_spec 1000 50 (by norm_num) (by norm_num) (by norm_num)).2.2.2.2.2.2.1⟩

theorem mem_if_singleton {α : Type} (e x : α) (c : Prop) [Decidable c] :
    e ∈ (if c then [x] else []) ↔ c ∧ e = x := by
  split_ifs with h <;> simp [h]

theorem squarePolarity_mem_sweepErrorsPre (c : SweepConfig) :
    ValidationError.squarePolarity ∈ sweepErrorsPre c ↔
      (c.waveform_mode = "square" ∧ c.v_on < c.v_off) := by
  rcases hts : c.trigger_delay_stop with _ | ds <;>
    simp [sweepErrorsPre, validateCommon, mem_if_singleton, hts]

theorem amplitude_mem_sweepErrorsPre (c : SweepConfig) :
    ValidationError.amplitudeOutOfRange (|c.v_on - c.v_off| / 2) ∈ sweepErrorsPre c ↔
      (|c.v_on - c.v_off| / 2 < 1/20 ∨ 2 < |c.v_on - c.v_off| / 2) := by
  rcases hts : c.trigger_delay_stop with _ | ds <;>
    simp [sweepErrorsPre, validateCommon, mem_if_singleton, hts]

theorem squarePolarity_not_mem_arbChecks (rate : ℚ) (pts : ℕ) :
    ValidationError.squarePolarity ∉ arbChecks rate pts := by
  simp [arbChecks, mem_if_singleton]

theorem amplitude_not_mem_arbChecks (a rate : ℚ) (pts : ℕ) :
    ValidationError.amplitudeOutOfRange a ∉ arbChecks rate pts := by
  simp [arbChecks, mem_if_singleton]

/-- A square-mode sweep configuration with `v_on < v_off` (all other
checks passing). -/
def exC6Square : SweepConfig where
  visa_address := ""
  v_on := -1
  v_off := 1
  frequency := 1000
  trigger_delay := 0
  resolution_n := 1
  width_start := 1/10^4
  width_stop := 1/10^4
  width_step := 1/10^5
  wait_time := 0

/-- The same configuration in arbitrary mode. -/
def exC6Arb : SweepConfig := { exC6Square with waveform_mode := "arbitrary" }

/-- C6: `SweepConfig.validate` accumulates all violations: whenever it
returns, the square-polarity violation is reported iff `waveform_mode =
"square"` and `v_on < v_off`, and (independently, in the same returned
list) the amplitude-range violation is reported iff the amplitude is out
of range; in particular the square configuration with `v_on < v_off`
reports the polarity violation and its arbitrary-mode twin does not. -/
theorem sweep_validate_spec :
    (∀ (fuel : ℕ) (c : SweepConfig) (errs : List ValidationError),
      SweepConfig.validate fuel c = some errs →
      ((ValidationError.squarePolarity ∈ errs ↔
          (c.waveform_mode = "square" ∧ c.v_on < c.v_off)) ∧
       (ValidationError.amplitudeOutOfRange (|c.v_on - c.v_off| / 2) ∈ errs ↔
          (|c.v_on - c.v_off| / 2 < 1/20 ∨ 2 < |c.v_on - c.v_off| / 2)))) ∧
    (∀ (fuel : ℕ) (errs : List ValidationError),
      SweepConfig.validate fuel exC6Square = some errs →
      ValidationError.squarePolarity ∈ errs) ∧
    (∀ (fuel : ℕ) (errs : List ValidationError),
      SweepConfig.validate fuel exC6Arb = some errs →
      ValidationError.squarePolarity ∉ errs) := by
  have hmain : ∀ (fuel : ℕ) (c : SweepConfig) (errs : List ValidationError),
      SweepConfig.validate fuel c = some errs →
      ((ValidationError.squarePolarity ∈ errs ↔
          (c.waveform_mode = "square" ∧ c.v_on < c.v_off)) ∧
       (ValidationError.amplitudeOutOfRange (|c.v_on - c.v_off| / 2) ∈ errs ↔
          (|c.v_on - c.v_off| / 2 < 1/20 ∨ 2 < |c.v_on - c.v_off| / 2))) := by
    intro fuel c errs h
    unfold SweepConfig.validate at h
    split_ifs at h with hm
    · cases hcalc : calcArbParams fuel c.frequency
          (generateWidths c.width_start c.width_stop c.width_step) 1 with
      | none => rw [hcalc] at h; exact absurd h (by simp)
      | some r =>
        rw [hcalc] at h
        cases r with
        | error msg =>
          simp only [Option.some.injEq] at h
          subst h
          constructor
          · rw [List.mem_append]
            simp only [List.mem_singleton]
            rw [squarePolarity_mem_sweepErrorsPre]
            simp
          · rw [List.mem_append]
            simp only [List.mem_singleton]
            rw [amplitude_mem_sweepErrorsPre]
            simp
        | ok v =>
          obtain ⟨rate, pts⟩ := v
          simp only [Option.some.injEq] at h
          subst h
          constructor
          · rw [List.mem_append]
            rw [squarePolarity_mem_sweepErrorsPre]
            have := squarePolarity_not_mem_arbChecks rate pts
            tauto
          · rw [List.mem_append]
            rw [amplitude_mem_sweepErrorsPre]
            have := amplitude_not_mem_arbChecks (|c.v_on - c.v_off| / 2) rate pts
            tauto
    · simp only [Option.some.injEq] at h
      subst h
      exact ⟨squarePolarity_mem_sweepErrorsPre c, amplitude_mem_sweepErrorsPre c⟩
  refine ⟨hmain, ?_, ?_⟩
  · intro fuel errs h
    exact (hmain fuel exC6Square errs h).1.mpr ⟨rfl, by norm_num [exC6Square]⟩
  · intro fuel errs h
    intro hmem
    have := (hmain fuel exC6Arb errs h).1.mp hmem
    have hne : exC6Arb.waveform_mode = "arbitrary" := rfl
    rw [hne] at this
    exact absurd this.1 (by decide)

/-- Witness for C6 at the square-mode example configuration. -/
theorem sweep_validate_spec_witness :
    SweepConfig.validate 0 exC6Square = some (sweepErrorsPre exC6Square) ∧
    ((ValidationError.squarePolarity ∈ sweepErrorsPre exC6Square ↔
        (exC6Square.waveform_mode = "square" ∧ exC6Square.v_on < exC6Square.v_off)) ∧
     (ValidationError.amplitudeOutOfRange (|exC6Square.v_on - exC6Square.v_off| / 2) ∈
        sweepErrorsPre exC6Square ↔
        (|exC6Square.v_on - exC6Square.v_off| / 2 < 1/20 ∨
          2 < |exC6Square.v_on - exC6Square.v_off| / 2))) := by
  have hval : SweepConfig.validate 0 exC6Square = some (sweepErrorsPre exC6Square) := by
    unfold SweepConfig.validate
    rw [if_neg (by decide : ¬(exC6Square.waveform_mode = "arbitrary"))]
  exact ⟨hval, sweep_validate_spec.1 0 exC6Square _ hval⟩

/-! ## `app.py`: SI-prefix parsing and formatting

`parse_si` is modelled by a hand-rolled parser equivalent to the anchored
regex `^\s*([+-]?\d+(?:\.\d*)?(?:[eE][+-]?\d+)?)\s*([nuμmkM])?\s*$` (ASCII
digits/whitespace, which is what the UI feeds it); since every SI factor in
the table is a power of ten, the char-level stage returns the decimal
exponent of the matched prefix.  `format_si`'s `f"{scaled:g}"` is modelled
by `gFmt`, CPython `%g` on exact decimal inputs: 6 significant digits,
trailing zeros stripped, scientific notation for decimal exponents outside
`[-4, 6)`. -/

/-- Numeric value of an ASCII digit string (most significant first). -/
def digitsToNat (cs : List Char) : ℕ :=
  cs.foldl (fun a ch => 10 * a + (ch.toNat - '0'.toNat)) 0

/-- Decimal exponent of an SI prefix character (`_SI_PREFIXES`). -/
def siPrefixExp (ch : Char) : Option ℤ :=
  if ch = 'n' then some (-9)
  else if ch = 'u' then some (-6)
  else if ch = 'μ' then some (-6)
  else if ch = 'm' then some (-3)
  else if ch = 'k' then some 3
  else if ch = 'M' then some 6
  else none

/-- `[+-]?\d+` with the unconsumed remainder. -/
def parseSignedNat (cs : List Char) : Option (ℤ × List Char) :=
  let p : ℤ × List Char :=
    match cs with
    | '+' :: t => (1, t)
    | '-' :: t => (-1, t)
    | _ => (1, cs)
  let ds := p.2.takeWhile (fun ch => ch.isDigit)
  if ds.isEmpty then none
  else some (p.1 * (digitsToNat ds : ℤ), p.2.drop ds.length)

/-- `(?:[eE][+-]?\d+)?`: `some (0, cs)` when no exponent is present. -/
def parseExpPart : List Char → Option (ℤ × List Char)
  | 'e' :: rest => parseSignedNat rest
  | 'E' :: rest => parseSignedNat rest
  | cs => some (0, cs)

/-- Char-level stage of `parse_si`: sign, integer digits, number of
fraction digits, fraction digits, exponent, prefix decimal exponent. -/
def parseSICore (s : String) : Option (Bool × ℕ × ℕ × ℕ × ℤ × ℤ) :=
  let cs0 := s.toList.dropWhile (fun ch => ch.isWhitespace)
  let neg : Bool := match cs0 with | '-' :: _ => true | _ => false
  let cs1 : List Char := match cs0 with | '+' :: t => t | '-' :: t => t | _ => cs0
  let intDs := cs1.takeWhile (fun ch => ch.isDigit)
  let cs2 := cs1.drop intDs.length
  if intDs.isEmpty then none
  else
    let fracDs : List Char :=
      match cs2 with
      | '.' :: t => t.takeWhile (fun ch => ch.isDigit)
      | _ => []
    let cs3 : List Char :=
      match cs2 with
      | '.' :: t => t.drop (t.takeWhile (fun ch => ch.isDigit)).length
      | _ => cs2
    match parseExpPart cs3 with
    | none => none
    | some (ex, cs4) =>
      let cs5 := cs4.dropWhile (fun ch => ch.isWhitespace)
      let pr : ℤ × List Char :=
        match cs5 with
        | ch :: t =>
          match siPrefixExp ch with
          | some p => (p, t)
          | none => (0, cs5)
        | [] => (0, [])
      if ((pr.2.dropWhile (fun ch => ch.isWhitespace)).isEmpty) then
        some (neg, digitsToNat intDs, fracDs.length, digitsToNat fracDs, ex, pr.1)
      else none

/-- `app.parse_si` (`none` = the `ValueError` for non-matching input). -/
def parseSI (s : String) : Option ℚ :=
  match parseSICore s with
  | none => none
  | some (neg, ip, fdlen, fp, ex, pe) =>
    some ((if neg then (-1 : ℚ) else 1) * ((ip : ℚ) + (fp : ℚ) / 10^fdlen) *
      10^ex * 10^pe)

/-- Number of decimal digits of `n` (1 for `n = 0`). -/
def digitLen (n : ℕ) : ℕ := (Nat.toDigits 10 n).length

/-- The decimal exponent `e` with `10^e ≤ x < 10^(e+1)` for `x > 0`. -/
def decExpOf (x : ℚ) : ℤ :=
  if 1 ≤ x then (digitLen ⌊x⌋.toNat : ℤ) - 1
  else -(digitLen ((⌈1/x⌉).toNat - 1) : ℤ)

def stripTrailingZeros (cs : List Char) : List Char :=
  (cs.reverse.dropWhile (fun ch => ch = '0')).reverse

/-- Rendering stage of `%g` from the 6-digit significand `r` (an integer
in `[10^5, 10^6)`) and the decimal exponent `e`. -/
def gFmtCore (neg : Bool) (r e : ℤ) : String :=
  let digits := Nat.toDigits 10 r.toNat
  let s := if neg then "-" else ""
  if -4 ≤ e ∧ e < 6 then
    if 0 ≤ e then
      let ip := digits.take (e + 1).toNat
      let fp := stripTrailingZeros (digits.drop (e + 1).toNat)
      s ++ String.mk ip ++ (if fp.isEmpty then "" else "." ++ String.mk fp)
    else
      s ++ "0." ++ String.mk (List.replicate (-e - 1).toNat '0') ++
        String.mk (stripTrailingZeros digits)
  else
    let rest := stripTrailingZeros (digits.drop 1)
    s ++ String.mk (digits.take 1) ++
      (if rest.isEmpty then "" else "." ++ String.mk rest) ++
      "e" ++ (if 0 ≤ e then "+" else "-") ++
      (if e.natAbs < 10 then "0" else "") ++ String.mk (Nat.toDigits 10 e.natAbs)

/-- CPython `'%g' % x` on an exact rational. -/
def gFmt (q : ℚ) : String :=
  if q = 0 then "0"
  else if pyRound (|q| * 10^(5 - decExpOf |q|)) = 10^6 then
    gFmtCore (q < 0) (10^5) (decExpOf |q| + 1)
  else gFmtCore (q < 0) (pyRound (|q| * 10^(5 - decExpOf |q|))) (decExpOf |q|)

/-- `_FORMAT_PREFIXES`, largest first. -/
def siFormatList : List (ℚ × String) :=
  [(10^6, "M"), (10^3, "k"), (1, ""), (1/10^3, "m"), (1/10^6, "u"), (1/10^9, "n")]

/-- `app.format_si`. -/
def formatSI (q : ℚ) : String :=
  if q = 0 then "0"
  else
    match siFormatList.find? (fun fp => 1 ≤ |q / fp.1|) with
    | some fp => gFmt (q / fp.1) ++ fp.2
    | none => gFmt (q / (1/10^9)) ++ "n"

theorem gFmt_eval (q : ℚ) (e r : ℤ) (hq : 0 < q)
    (he : decExpOf q = e) (hr : q * 10^(5 - e) = ((r : ℤ) : ℚ)) (hne : r ≠ 10^6) :
    gFmt q = gFmtCore false r e := by
  unfold gFmt
  rw [if_neg (ne_of_gt hq), abs_of_pos hq, he, hr, pyRound_intCast, if_neg hne,
    decide_eq_false (not_lt.mpr (le_of_lt hq))]

theorem decExpOf_one : decExpOf (1 : ℚ) = 0 := by
  unfold decExpOf
  rw [if_pos (le_refl 1), show ⌊(1 : ℚ)⌋ = 1 from by norm_num]
  rfl

theorem decExpOf_two_half : decExpOf (5/2 : ℚ) = 0 := by
  unfold decExpOf
  rw [if_pos (by norm_num : (1 : ℚ) ≤ 5/2), show ⌊(5/2 : ℚ)⌋ = 2 from by norm_num]
  rfl

theorem decExpOf_twenty : decExpOf (20 : ℚ) = 1 := by
  unfold decExpOf
  rw [if_pos (by norm_num : (1 : ℚ) ≤ 20), show ⌊(20 : ℚ)⌋ = 20 from by norm_num]
  rfl

theorem decExpOf_pi_ish : decExpOf (157/50 : ℚ) = 0 := by
  unfold decExpOf
  rw [if_pos (by norm_num : (1 : ℚ) ≤ 157/50), show ⌊(157/50 : ℚ)⌋ = 3 from by norm_num]
  rfl

theorem formatSI_1n : formatSI (1/10^9 : ℚ) = "1n" := by
  have hfind : siFormatList.find? (fun fp => 1 ≤ |(1/10^9 : ℚ) / fp.1|) =
      some (1/10^9, "n") := by
    simp only [siFormatList, List.find?_cons, List.find?_nil]
    norm_num [abs_of_nonneg]
  have hg : gFmt (1 : ℚ) = "1" := by
    rw [gFmt_eval 1 0 100000 (by norm_num) decExpOf_one (by norm_num) (by decide)]
    rfl
  unfold formatSI
  rw [if_neg (by norm_num : ¬((1/10^9 : ℚ) = 0)), hfind]
  show gFmt ((1/10^9 : ℚ) / (1/10^9)) ++ "n" = "1n"
  rw [show ((1/10^9 : ℚ) / (1/10^9)) = 1 from by norm_num, hg]
  rfl

theorem formatSI_2u5 : formatSI (25/10^7 : ℚ) = "2.5u" := by
  have hfind : siFormatList.find? (fun fp => 1 ≤ |(25/10^7 : ℚ) / fp.1|) =
      some (1/10^6, "u") := by
    simp only [siFormatList, List.find?_cons, List.find?_nil]
    norm_num [abs_of_nonneg]
  have hg : gFmt (5/2 : ℚ) = "2.5" := by
    rw [gFmt_eval (5/2) 0 250000 (by norm_num) decExpOf_two_half (by norm_num) (by decide)]
    rfl
  unfold formatSI
  rw [if_neg (by norm_num : ¬((25/10^7 : ℚ) = 0)), hfind]
  show gFmt ((25/10^7 : ℚ) / (1/10^6)) ++ "u" = "2.5u"
  rw [show ((25/10^7 : ℚ) / (1/10^6)) = 5/2 from by norm_num, hg]
  rfl

theorem formatSI_20m : formatSI (1/50 : ℚ) = "20m" := by
  have hfind : siFormatList.find? (fun fp => 1 ≤ |(1/50 : ℚ) / fp.1|) =
      some (1/10^3, "m") := by
    simp only [siFormatList, List.find?_cons, List.find?_nil]
    norm_num [abs_of_nonneg]
  have hg : gFmt (20 : ℚ) = "20" := by
    rw [gFmt_eval 20 1 200000 (by norm_num) decExpOf_twenty (by norm_num) (by decide)]
    rfl
  unfold formatSI
  rw [if_neg (by norm_num : ¬((1/50 : ℚ) = 0)), hfind]
  show gFmt ((1/50 : ℚ) / (1/10^3)) ++ "m" = "20m"
  rw [show ((1/50 : ℚ) / (1/10^3)) = 20 from by norm_num, hg]
  rfl

theorem formatSI_20k : formatSI (20000 : ℚ) = "20k" := by
  have hfind : siFormatList.find? (fun fp => 1 ≤ |(20000 : ℚ) / fp.1|) =
      some (10^3, "k") := by
    simp only [siFormatList, List.find?_cons, List.find?_nil]
    norm_num [abs_of_nonneg]
  have hg : gFmt (20 : ℚ) = "20" := by
    rw [gFmt_eval 20 1 200000 (by norm_num) decExpOf_twenty (by norm_num) (by decide)]
    rfl
  unfold formatSI
  rw [if_neg (by norm_num : ¬((20000 : ℚ) = 0)), hfind]
  show gFmt ((20000 : ℚ) / 10^3) ++ "k" = "20k"
  rw [show ((20000 : ℚ) / 10^3) = 20 from by norm_num, hg]
  rfl

theorem formatSI_3M14 : formatSI (3140000 : ℚ) = "3.14M" := by
  have hfind : siFormatList.find? (fun fp => 1 ≤ |(3140000 : ℚ) / fp.1|) =
      some (10^6, "M") := by
    simp only [siFormatList, List.find?_cons, List.find?_nil]
    norm_num [abs_of_nonneg]
  have hg : gFmt (157/50 : ℚ) = "3.14" := by
    rw [gFmt_eval (157/50) 0 314000 (by norm_num) decExpOf_pi_ish (by norm_num) (by decide)]
    rfl
  unfold formatSI
  rw [if_neg (by norm_num : ¬((3140000 : ℚ) = 0)), hfind]
  show gFmt ((3140000 : ℚ) / 10^6) ++ "M" = "3.14M"
  rw [show ((3140000 : ℚ) / 10^6) = 157/50 from by norm_num, hg]
  rfl

theorem parseSI_of_core (s : String) (neg : Bool) (ip fdlen fp : ℕ) (ex pe : ℤ)
    (h : parseSICore s = some (neg, ip, fdlen, fp, ex, pe)) :
    parseSI s = some ((if neg then (-1 : ℚ) else 1) * ((ip : ℚ) + (fp : ℚ) / 10^fdlen) *
      10^ex * 10^pe) := by
  unfold parseSI
  rw [h]

theorem formatSI_selection (q : ℚ) (hq : q ≠ 0) :
    formatSI q =
      if 1 ≤ |q / 10^6| then gFmt (q / 10^6) ++ "M"
      else if 1 ≤ |q / 10^3| then gFmt (q / 10^3) ++ "k"
      else if 1 ≤ |q / 1| then gFmt (q / 1) ++ ""
      else if 1 ≤ |q / (1/10^3)| then gFmt (q / (1/10^3)) ++ "m"
      else if 1 ≤ |q / (1/10^6)| then gFmt (q / (1/10^6)) ++ "u"
      else gFmt (q / (1/10^9)) ++ "n" := by
  unfold formatSI
  rw [if_neg hq]
  simp only [siFormatList, List.find?_cons, List.find?_nil, decide_eq_true_eq]
  split_ifs with h1 h2 h3 h4 h5
  · rw [decide_eq_true h1]
  · rw [decide_eq_false h1, decide_eq_true h2]
  · rw [decide_eq_false h1, decide_eq_false h2, decide_eq_true h3]
  · rw [decide_eq_false h1, decide_eq_false h2, decide_eq_false h3, decide_eq_true h4]
  · rw [decide_eq_false h1, decide_eq_false h2, decide_eq_false h3, decide_eq_false h4,
      decide_eq_true h5]
  · rcases Classical.em (1 ≤ |q / (1/10^9)|) with h6 | h6
    · rw [decide_eq_false h1, decide_eq_false h2, decide_eq_false h3, decide_eq_false h4,
        decide_eq_false h5, decide_eq_true h6]
    · rw [decide_eq_false h1, decide_eq_false h2, decide_eq_false h3, decide_eq_false h4,
        decide_eq_false h5, decide_eq_false h6]

/-- C7: the SI codec round-trips on the spec's representative values
(`1e-9, 2.5e-6, 0.02, 20000, 3.14e6`, exactly in the rational model);
`parse_si("10u") = 1e-5`; non-matching text is rejected; `format_si(0)`
is the literal `"0"`; and for nonzero input `format_si` picks the first
factor in the order `M, k, (none), m, u, n` whose scaled magnitude is
`≥ 1`, falling back to the `n` scale otherwise. -/
theorem si_codec_spec :
    parseSI (formatSI (1/10^9 : ℚ)) = some (1/10^9 : ℚ) ∧
    parseSI (formatSI (25/10^7 : ℚ)) = some (25/10^7 : ℚ) ∧
    parseSI (formatSI (1/50 : ℚ)) = some (1/50 : ℚ) ∧
    parseSI (formatSI (20000 : ℚ)) = some (20000 : ℚ) ∧
    parseSI (formatSI (3140000 : ℚ)) = some (3140000 : ℚ) ∧
    parseSI "10u" = some (1/10^5 : ℚ) ∧
    parseSI "garbage" = none ∧
    formatSI (0 : ℚ) = "0" ∧
    (∀ q : ℚ, q ≠ 0 → formatSI q =
      if 1 ≤ |q / 10^6| then gFmt (q / 10^6) ++ "M"
      else if 1 ≤ |q / 10^3| then gFmt (q / 10^3) ++ "k"
      else if 1 ≤ |q / 1| then gFmt (q / 1) ++ ""
      else if 1 ≤ |q / (1/10^3)| then gFmt (q / (1/10^3)) ++ "m"
      else if 1 ≤ |q / (1/10^6)| then gFmt (q / (1/10^6)) ++ "u"
      else gFmt (q / (1/10^9)) ++ "n") := by
  refine ⟨?_, ?_, ?_, ?_, ?_, ?_, ?_, ?_, formatSI_selection⟩
  · rw [formatSI_1n,
      parseSI_of_core "1n" false 1 0 0 0 (-9) rfl]
    norm_num
  · rw [formatSI_2u5,
      parseSI_of_core "2.5u" false 2 1 5 0 (-6) rfl]
    norm_num
  · rw [formatSI_20m,
      parseSI_of_core "20m" false 20 0 0 0 (-3) rfl]
    norm_num
  · rw [formatSI_20k,
      parseSI_of_core "20k" false 20 0 0 0 3 rfl]
    norm_num
  · rw [formatSI_3M14,
      parseSI_of_core "3.14M" false 3 2 14 0 6 rfl]
    norm_num
  · rw [parseSI_of_core "10u" false 10 0 0 0 (-6) rfl]
    norm_num
  · unfold parseSI
    rw [show parseSICore "garbage" = none from rfl]
  · unfold formatSI
    rw [if_pos rfl]

/-- Witness for C7's selection rule at `0.02`. -/
theorem si_codec_spec_witness :
    (1/50 : ℚ) ≠ 0 ∧ parseSI (formatSI (1/50 : ℚ)) = some (1/50 : ℚ) :=
  ⟨by norm_num, si_codec_spec.2.2.1⟩

end PulseControl

namespace FemSim

/-! ## `fem_simulation/fem.py`: the Newton/homotopy driver and the bias sweep

`ngsolve.solvers.Newton` is external numerical code; it is modelled by an
oracle `newton : ℚ → σ → Bool × σ` giving, for the current homotopy
parameter value (charge and sigma are always set together) and the current
grid-function state, whether the solve converged and the mutated state
(ngsolve's Newton updates `u` in place even on failure). -/

/-- The homotopy parameter values `step / 10` for `step in
range(n_hmtp_steps + 1)` with `n_hmtp_steps = 10`. -/
def hmtpParams : List ℚ := (List.range 11).map (fun i : ℕ => (i : ℚ) / 10)

/-- One record per homotopy Newton attempt: the parameter value it ran at
and whether it converged. -/
def homotopyRun (newton : ℚ → σ → Bool × σ) : List ℚ → σ → List (ℚ × Bool) × Option σ
  | [], u => ([], some u)
  | p :: ps, u =>
    let r := newton p u
    if r.1 then
      let rest := homotopyRun newton ps r.2
      ((p, true) :: rest.1, rest.2)
    else ([(p, false)], none)

/-- Result of `_solve_newton`: whether the initial full-nonlinearity
attempt converged, the trace of homotopy attempts, and the final state
(`none` = the `RuntimeError` abort). -/
structure NewtonOutcome (σ : Type) where
  fullConverged : Bool
  fallback : List (ℚ × Bool)
  result : Option σ

/-- `fem._solve_newton`: set both homotopy parameters to 1 and try Newton;
on failure run the homotopy loop over `hmtpParams` from the mutated state,
aborting at the first non-converging step. -/
def solveNewton (newton : ℚ → σ → Bool × σ) (u : σ) : NewtonOutcome σ :=
  let r := newton 1 u
  if r.1 then ⟨true, [], some r.2⟩
  else
    let h := homotopyRun newton hmtpParams r.2
    ⟨false, h.1, h.2⟩

theorem homotopyRun_spec (newton : ℚ → σ → Bool × σ) :
    ∀ (ps : List ℚ) (u : σ),
      (homotopyRun newton ps u =
        (ps.map (fun p => (p, true)), some (ps.foldl (fun s p => (newton p s).2) u)))
      ∨ (∃ k, ∃ hk : k < ps.length,
          (homotopyRun newton ps u).1 =
            (ps.take k).map (fun p => (p, true)) ++ [(ps.get ⟨k, hk⟩, false)] ∧
          (homotopyRun newton ps u).2 = none) := by
  intro ps
  induction ps with
  | nil => intro u; left; rfl
  | cons p ps ih =>
    intro u
    by_cases hc : (newton p u).1 = true
    · rcases ih (newton p u).2 with h | ⟨k, hk, h1, h2⟩
      · left
        simp only [homotopyRun, hc, if_true, h]
        rfl
      · right
        refine ⟨k + 1, by simpa using Nat.succ_lt_succ hk, ?_, ?_⟩
        · simp only [homotopyRun, hc, if_true, h1]
          rfl
        · simp only [homotopyRun, hc, if_true, h2]
    · right
      refine ⟨0, by simp, ?_, ?_⟩
      · simp only [homotopyRun, Bool.not_eq_true] at hc ⊢
        rw [hc]
        rfl
      · simp only [homotopyRun, Bool.not_eq_true] at hc ⊢
        rw [hc]
        rfl

/-- C1, counterexample: an oracle whose full-nonlinearity attempt fails
and whose homotopy attempts all converge.  The fallback then consists of
**11** Newton runs at parameters `0/10, 1/10, …, 10/10`, not of 10 runs at
`1/10, …, 10/10` as the claim states. -/
theorem hmtpParams_eq :
    hmtpParams = [0, 1/10, 2/10, 3/10, 4/10, 5/10, 6/10, 7/10, 8/10, 9/10, 1] := by
  unfold hmtpParams
  rw [show List.range 11 = [0, 1, 2, 3, 4, 5, 6, 7, 8, 9, 10] from rfl]
  simp only [List.map_cons, List.map_nil]
  norm_num

theorem solve_newton_counterexample :
    (solveNewton (fun _p (u : ℕ) => (decide (u ≠ 0), u + 1)) 0).fullConverged = false ∧
    (solveNewton (fun _p (u : ℕ) => (decide (u ≠ 0), u + 1)) 0).fallback.map Prod.fst =
      hmtpParams ∧
    hmtpParams = [0, 1/10, 2/10, 3/10, 4/10, 5/10, 6/10, 7/10, 8/10, 9/10, 1] ∧
    hmtpParams ≠ (List.range 10).map (fun i : ℕ => ((i : ℚ) + 1) / 10) := by
  have hfb : (solveNewton (fun _p (u : ℕ) => (decide (u ≠ 0), u + 1)) 0).fallback =
      hmtpParams.map (fun p => (p, true)) := rfl
  refine ⟨rfl, ?_, hmtpParams_eq, ?_⟩
  · rw [hfb, List.map_map]
    rw [show (Prod.fst ∘ fun p : ℚ => (p, true)) = id from rfl, List.map_id]
  · have hcl : (List.range 10).map (fun i : ℕ => ((i : ℚ) + 1) / 10) =
        [1/10, 2/10, 3/10, 4/10, 5/10, 6/10, 7/10, 8/10, 9/10, 1] := by
      rw [show List.range 10 = [0, 1, 2, 3, 4, 5, 6, 7, 8, 9] from rfl]
      simp only [List.map_cons, List.map_nil]
      norm_num
    rw [hmtpParams_eq, hcl]
    intro hEq
    rw [List.cons.injEq] at hEq
    exact absurd hEq.1 (by norm_num)

/-- C1 (amended): if the full-nonlinearity Newton attempt converges there
is no fallback; otherwise the homotopy fallback runs Newton at the **11**
parameter values `i/10` for `i = 0…10` (charge and sigma set together),
each step continuing from the state left by the previous run: either all
11 steps converge and the run succeeds with the chained final state, or it
aborts fatally at the first non-converging step, the earlier steps all
having converged. -/
theorem solve_newton_homotopy_amended :
    hmtpParams = [0, 1/10, 2/10, 3/10, 4/10, 5/10, 6/10, 7/10, 8/10, 9/10, 1] ∧
    (∀ {σ : Type} (newton : ℚ → σ → Bool × σ) (u : σ),
      ((newton 1 u).1 = true →
        solveNewton newton u = ⟨true, [], some (newton 1 u).2⟩) ∧
      ((newton 1 u).1 = false →
        (solveNewton newton u).fullConverged = false ∧
        (((solveNewton newton u).fallback = hmtpParams.map (fun p => (p, true)) ∧
          (solveNewton newton u).result =
            some (hmtpParams.foldl (fun s p => (newton p s).2) (newton 1 u).2)) ∨
         (∃ k, ∃ hk : k < hmtpParams.length,
           (solveNewton newton u).fallback =
             (hmtpParams.take k).map (fun p => (p, true)) ++
               [(hmtpParams.get ⟨k, hk⟩, false)] ∧
           (solveNewton newton u).result = none)))) := by
  refine ⟨hmtpParams_eq, ?_⟩
  intro σ newton u
  constructor
  · intro h
    simp only [solveNewton]
    rw [h]
    rfl
  · intro h
    simp only [solveNewton]
    rw [h]
    refine ⟨rfl, ?_⟩
    rcases homotopyRun_spec newton hmtpParams (newton 1 u).2 with hh | ⟨k, hk, h1, h2⟩
    · left
      constructor
      · show (homotopyRun newton hmtpParams (newton 1 u).2).1 = _
        rw [hh]
      · show (homotopyRun newton hmtpParams (newton 1 u).2).2 = _
        rw [hh]
    · exact Or.inr ⟨k, hk, h1, h2⟩

/-- Witness for the amended C1 at an oracle whose full attempt fails and
whose homotopy attempts all converge. -/
theorem solve_newton_homotopy_amended_witness :
    ((fun _p (u : ℕ) => (decide (u ≠ 0), u + 1)) (1 : ℚ) 0).1 = false ∧
    ((solveNewton (fun _p (u : ℕ) => (decide (u ≠ 0), u + 1)) 0).fullConverged = false ∧
      (((solveNewton (fun _p (u : ℕ) => (decide (u ≠ 0), u + 1)) 0).fallback =
          hmtpParams.map (fun p => (p, true)) ∧
        (solveNewton (fun _p (u : ℕ) => (decide (u ≠ 0), u + 1)) 0).result =
          some (hmtpParams.foldl
            (fun s p => ((fun _p (u : ℕ) => (decide (u ≠ 0), u + 1)) p s).2)
            (((fun _p (u : ℕ) => (decide (u ≠ 0), u + 1)) (1 : ℚ) 0).2))) ∨
       (∃ k, ∃ hk : k < hmtpParams.length,
         (solveNewton (fun _p (u : ℕ) => (decide (u ≠ 0), u + 1)) 0).fallback =
           (hmtpParams.take k).map (fun p => (p, true)) ++
             [(hmtpParams.get ⟨k, hk⟩, false)] ∧
         (solveNewton (fun _p (u : ℕ) => (decide (u ≠ 0), u + 1)) 0).result = none))) :=
  ⟨rfl, (solve_newton_homotopy_amended.2 (fun _p (u : ℕ) => (decide (u ≠ 0), u + 1)) 0).2 rfl⟩

/-! ### `fem.run_fem`: the bias-voltage sweep -/

/-- One `solve_and_save` call: the tip voltage, the state the Newton solve
started from, the resulting state, and whether the result was persisted. -/
structure SolveEvent (σ : Type) where
  vtip : ℚ
  init : σ
  result : σ
  saved : Bool
deriving DecidableEq, Repr

/-- `np.sort` ascending. -/
def sortAsc (l : List ℚ) : List ℚ := l.mergeSort (fun a b => a ≤ b)

/-- The chained `solve_and_save` calls over a voltage list, each Newton
solve continuing from the previous converged state, all persisted. -/
def chainSolves (solve : ℚ → σ → σ) : List ℚ → σ → List (SolveEvent σ)
  | [], _ => []
  | v :: vs, s => ⟨v, s, solve v s, true⟩ :: chainSolves solve vs (solve v s)

/-- `fem.run_fem` as the sequence of solve events it performs: `Vtip = 0`
first from the fresh state (persisted iff `0 ∈ Vtip_list`), then the
positive voltages ascending from the zero solution, then — after restoring
the snapshotted zero solution — the negative voltages in descending order
(closest to zero first), again starting from the zero solution. -/
def runFem (solve : ℚ → σ → σ) (u0 : σ) (vtips : List ℚ) : List (SolveEvent σ) :=
  let positives := sortAsc (vtips.filter (fun v => 0 < v))
  let negatives := (sortAsc (vtips.filter (fun v => v < 0))).reverse
  let s0 := solve 0 u0
  ⟨0, u0, s0, decide ((0 : ℚ) ∈ vtips)⟩ ::
    (chainSolves solve positives s0 ++ chainSolves solve negatives s0)

theorem chainSolves_map_vtip (solve : ℚ → σ → σ) :
    ∀ (vs : List ℚ) (s : σ), (chainSolves solve vs s).map (fun e => e.vtip) = vs := by
  intro vs
  induction vs with
  | nil => intro s; rfl
  | cons v vs ih => intro s; simp [chainSolves, ih]

theorem chainSolves_events (solve : ℚ → σ → σ) :
    ∀ (vs : List ℚ) (s : σ), ∀ e ∈ chainSolves solve vs s,
      e.result = solve e.vtip e.init ∧ e.saved = true := by
  intro vs
  induction vs with
  | nil => intro s e he; simp [chainSolves] at he
  | cons v vs ih =>
    intro s e he
    rcases List.mem_cons.mp he with h | h
    · subst h; exact ⟨rfl, rfl⟩
    · exact ih (solve v s) e h

theorem chainSolves_head_init (solve : ℚ → σ → σ) (vs : List ℚ) (s : σ) (e : SolveEvent σ)
    (h : (chainSolves solve vs s).head? = some e) : e.init = s := by
  cases vs with
  | nil => simp [chainSolves] at h
  | cons v vs =>
    simp only [chainSolves, List.head?_cons, Option.some.injEq] at h
    rw [← h]

theorem chainSolves_link (solve : ℚ → σ → σ) :
    ∀ (vs : List ℚ) (s : σ) (i : ℕ) (h : i + 1 < (chainSolves solve vs s).length),
      ((chainSolves solve vs s).get ⟨i + 1, h⟩).init =
        ((chainSolves solve vs s).get ⟨i, by omega⟩).result := by
  intro vs
  induction vs with
  | nil => intro s i h; simp [chainSolves] at h
  | cons v vs ih =>
    intro s i h
    cases i with
    | zero =>
      simp only [chainSolves] at h ⊢
      cases vs with
      | nil => simp [chainSolves] at h
      | cons w ws => rfl
    | succ j =>
      simp only [chainSolves, List.length_cons] at h
      exact ih (solve v s) j (by omega)

/-- C2: `run_fem` always solves `Vtip = 0` first (persisting iff `0` was
requested), snapshots the converged zero state, runs the positive voltages
in ascending order chained from it, and runs the negative voltages in
descending-magnitude order chained from the *restored* zero state — so the
first negative branch starts from the zero-bias solution, not from the
last positive one, as the concrete `[2, −1, 0]` trace shows. -/
theorem run_fem_sweep_order :
    (∀ {σ : Type} (solve : ℚ → σ → σ) (u0 : σ) (vtips : List ℚ),
      (runFem solve u0 vtips).head? =
        some ⟨0, u0, solve 0 u0, decide ((0 : ℚ) ∈ vtips)⟩ ∧
      runFem solve u0 vtips =
        ⟨0, u0, solve 0 u0, decide ((0 : ℚ) ∈ vtips)⟩ ::
          (chainSolves solve (sortAsc (vtips.filter (fun v => 0 < v))) (solve 0 u0) ++
            chainSolves solve ((sortAsc (vtips.filter (fun v => v < 0))).reverse)
              (solve 0 u0)) ∧
      (sortAsc (vtips.filter (fun v => 0 < v))).Sorted (· ≤ ·) ∧
      (sortAsc (vtips.filter (fun v => 0 < v))).Perm (vtips.filter (fun v => 0 < v)) ∧
      ((sortAsc (vtips.filter (fun v => v < 0))).reverse).Sorted (fun a b => b ≤ a) ∧
      ((sortAsc (vtips.filter (fun v => v < 0))).reverse).Perm
        (vtips.filter (fun v => v < 0)) ∧
      (∀ (vs : List ℚ) (s : σ) (e : SolveEvent σ),
        (chainSolves solve vs s).head? = some e → e.init = s) ∧
      (∀ (vs : List ℚ) (s : σ),
        (chainSolves solve vs s).map (fun e => e.vtip) = vs) ∧
      (∀ (vs : List ℚ) (s : σ), ∀ e ∈ chainSolves solve vs s,
        e.result = solve e.vtip e.init ∧ e.saved = true) ∧
      (∀ (vs : List ℚ) (s : σ) (i : ℕ) (h : i + 1 < (chainSolves solve vs s).length),
        ((chainSolves solve vs s).get ⟨i + 1, h⟩).init =
          ((chainSolves solve vs s).get ⟨i, by omega⟩).result)) ∧
    (runFem (fun v s => v :: s) ([] : List ℚ) [2, -1, 0] =
        [⟨0, [], [0], true⟩, ⟨2, [0], [2, 0], true⟩, ⟨-1, [0], [-1, 0], true⟩] ∧
      ([0] : List ℚ) ≠ [2, 0]) := by
  constructor
  · intro σ solve u0 vtips
    refine ⟨rfl, rfl, List.sorted_mergeSort' _, List.mergeSort_perm _ _, ?_, ?_,
      chainSolves_head_init solve, chainSolves_map_vtip solve, chainSolves_events solve,
      chainSolves_link solve⟩
    · exact List.pairwise_reverse.mpr (List.sorted_mergeSort' _)
    · exact ((sortAsc _).reverse_perm).trans (List.mergeSort_perm _ _)
  · constructor
    · have hz : decide ((0 : ℚ) ∈ [2, -1, 0]) = true := decide_eq_true (by norm_num)
      have hpos : ([2, -1, 0] : List ℚ).filter (fun v => 0 < v) = [2] := by
        norm_num [List.filter]
      have hneg : ([2, -1, 0] : List ℚ).filter (fun v => v < 0) = [-1] := by
        norm_num [List.filter]
      have hsp : sortAsc [2] = [2] := List.mergeSort_eq_self (List.sorted_singleton 2)
      have hsn : sortAsc [-1] = [-1] := List.mergeSort_eq_self (List.sorted_singleton (-1))
      unfold runFem
      rw [hz, hpos, hneg, hsp, hsn]
      rfl
    · intro h
      rw [List.cons.injEq] at h
      exact absurd h.1 (by norm_num)

/-- Witness for C2 at the concrete `[2, −1, 0]` sweep. -/
theorem run_fem_sweep_order_witness :
    (runFem (fun v (s : List ℚ) => v :: s) [] [2, -1, 0]).head? =
      some ⟨0, [], (fun v (s : List ℚ) => v :: s) 0 [], decide ((0 : ℚ) ∈ [2, -1, 0])⟩ :=
  (run_fem_sweep_order.1 (fun v (s : List ℚ) => v :: s) [] [2, -1, 0]).1

/-! ### `fem_simulation/fermi_dirac_integral.py`: the Aymerich-Humet
approximation of the Fermi-Dirac integral of order 1/2 -/

namespace FermiDirac

/-- `a = 9.6`. -/
def a : ℝ := 9.6

/-- `b = 2.13`. -/
def b : ℝ := 2.13

/-- `c = 2.4`. -/
def c : ℝ := 2.4

/-- `g = 2 / np.sqrt(np.pi)`. -/
noncomputable def g : ℝ := 2 / Real.sqrt Real.pi

/-- The map `t ↦ (t ** c + a) ** (1 / c)` applied to `t = |x - b|`. -/
noncomputable def phi (t : ℝ) : ℝ := (t ^ c + a) ^ (1/c)

/-- The bracketed base `b + x + (np.abs(x - b) ** c + a) ** (1 / c)`. -/
noncomputable def s (x : ℝ) : ℝ := b + x + phi |x - b|

/-- The denominator `3 * np.sqrt(2) * (…) ** (-1.5) + g * np.exp(-x)`. -/
noncomputable def F_half_denominator (x : ℝ) : ℝ :=
  3 * Real.sqrt 2 * s x ^ (-(1.5 : ℝ)) + g * Real.exp (-x)

/-- `fermi_dirac_integral.F_half_aymerich_humet_np` (scalar semantics). -/
noncomputable def F_half_aymerich_humet (x : ℝ) : ℝ := 1 / F_half_denominator x

/-- The spec's closed-form evaluation of `F½` at `x = 0` with
`a = 9.6, b = 2.13, c = 2.4, g = 2/√π` written out literally. -/
noncomputable def F_half_zero_closed_form : ℝ :=
  1 / (3 * Real.sqrt 2 *
      ((2.13 : ℝ) + 0 + (|(0 : ℝ) - 2.13| ^ (2.4 : ℝ) + 9.6) ^ (1/(2.4 : ℝ))) ^ (-(1.5 : ℝ)) +
    (2 / Real.sqrt Real.pi) * Real.exp (-(0 : ℝ)))

theorem a_pos : (0 : ℝ) < a := by norm_num [a]

theorem b_pos : (0 : ℝ) < b := by norm_num [b]

theorem c_pos : (0 : ℝ) < c := by norm_num [c]

theorem c_ne : c ≠ 0 := ne_of_gt c_pos

theorem one_div_c_pos : (0 : ℝ) < 1/c := by norm_num [c]

theorem g_pos : (0 : ℝ) < g :=
  div_pos two_pos (Real.sqrt_pos.mpr Real.pi_pos)

theorem rpow_c_inv (t : ℝ) (ht : 0 ≤ t) : (t ^ c) ^ (1/c) = t := by
  rw [← Real.rpow_mul ht, mul_one_div_cancel c_ne, Real.rpow_one]

theorem lt_phi (t : ℝ) (ht : 0 ≤ t) : t < phi t := by
  have h1 : t ^ c < t ^ c + a := lt_add_of_pos_right _ a_pos
  have h2 : (t ^ c) ^ (1/c) < (t ^ c + a) ^ (1/c) :=
    Real.rpow_lt_rpow (Real.rpow_nonneg ht c) h1 one_div_c_pos
  rwa [rpow_c_inv t ht] at h2

theorem phi_rpow_c (t : ℝ) (ht : 0 ≤ t) : phi t ^ c = t ^ c + a := by
  unfold phi
  have hnn : 0 ≤ t ^ c + a := by
    have := Real.rpow_nonneg ht c
    have := a_pos
    linarith
  rw [← Real.rpow_mul hnn, one_div_mul_cancel c_ne, Real.rpow_one]

theorem phi_mono (u v : ℝ) (hu : 0 ≤ u) (huv : u ≤ v) : phi u ≤ phi v := by
  unfold phi
  have h1 : u ^ c ≤ v ^ c := Real.rpow_le_rpow hu huv c_pos.le
  have h2 : 0 ≤ u ^ c + a := by
    have := Real.rpow_nonneg hu c
    have := a_pos
    linarith
  exact Real.rpow_le_rpow h2 (by linarith) one_div_c_pos.le

theorem shifted_rpow_strictMonoOn (d : ℝ) (hd : 0 < d) :
    StrictMonoOn (fun t : ℝ => (t + d) ^ c - t ^ c) (Set.Ici 0) := by
  apply strictMonoOn_of_deriv_pos (convex_Ici 0)
  · apply Continuous.continuousOn
    exact ((continuous_id.add continuous_const).rpow_const
        (fun x => Or.inr c_pos.le)).sub
      (continuous_id.rpow_const (fun x => Or.inr c_pos.le))
  · intro t ht
    rw [interior_Ici] at ht
    have htpos : (0 : ℝ) < t := ht
    have h1 : HasDerivAt (fun t : ℝ => (t + d) ^ c) (1 * c * (t + d) ^ (c - 1)) t :=
      HasDerivAt.rpow_const ((hasDerivAt_id t).add_const d)
        (Or.inl (by positivity))
    have h2 : HasDerivAt (fun t : ℝ => t ^ c) (c * t ^ (c - 1)) t :=
      Real.hasDerivAt_rpow_const (Or.inl (ne_of_gt htpos))
    rw [(h1.sub h2).deriv]
    have h4 : t ^ (c - 1) < (t + d) ^ (c - 1) :=
      Real.rpow_lt_rpow htpos.le (by linarith) (by norm_num [c])
    have h5 := mul_lt_mul_of_pos_left h4 c_pos
    linarith

theorem phi_sub_lt (u v : ℝ) (hu : 0 ≤ u) (huv : u < v) : phi v - phi u < v - u := by
  have hv : 0 ≤ v := le_trans hu huv.le
  have hd : 0 < phi u - u := sub_pos.mpr (lt_phi u hu)
  have hud : u + (phi u - u) = phi u := by ring
  have hkey : (u + (phi u - u)) ^ c - u ^ c < (v + (phi u - u)) ^ c - v ^ c :=
    shifted_rpow_strictMonoOn (phi u - u) hd (Set.mem_Ici.mpr hu) (Set.mem_Ici.mpr hv) huv
  have hues : (u + (phi u - u)) ^ c = u ^ c + a := by
    rw [hud]
    exact phi_rpow_c u hu
  have hvc : phi v ^ c = v ^ c + a := phi_rpow_c v hv
  have hlt : phi v ^ c < (v + (phi u - u)) ^ c := by
    rw [hvc]
    linarith
  have hphiv : phi v < v + (phi u - u) := by
    by_contra hcon
    push_neg at hcon
    have hvd : (0 : ℝ) ≤ v + (phi u - u) := by linarith
    have := Real.rpow_le_rpow hvd hcon c_pos.le
    linarith
  linarith

theorem s_strictMono : StrictMono s := by
  have key : ∀ x y, x < y → y ≤ b → s x < s y := by
    intro x y hxy hyb
    have h1 : |x - b| = b - x := by
      rw [abs_of_nonpos (by linarith : x - b ≤ 0)]
      ring
    have h2 : |y - b| = b - y := by
      rw [abs_of_nonpos (by linarith : y - b ≤ 0)]
      ring
    unfold s
    rw [h1, h2]
    have := phi_sub_lt (b - y) (b - x) (by linarith) (by linarith)
    linarith
  have key2 : ∀ x y, x < y → b ≤ x → s x < s y := by
    intro x y hxy hbx
    have h1 : |x - b| = x - b := abs_of_nonneg (by linarith)
    have h2 : |y - b| = y - b := abs_of_nonneg (by linarith)
    unfold s
    rw [h1, h2]
    have := phi_mono (x - b) (y - b) (by linarith) (by linarith)
    linarith
  intro x y hxy
  rcases le_or_lt y b with hyb | hby
  · exact key x y hxy hyb
  · rcases le_or_lt b x with hbx | hxb
    · exact key2 x y hxy hbx
    · exact lt_trans (key x b hxb (le_refl b)) (key2 b y hby (le_refl b))

theorem s_ge (x : ℝ) : 2 * b ≤ s x := by
  unfold s
  have h1 : |x - b| ≤ phi |x - b| := (lt_phi _ (abs_nonneg _)).le
  have h2 : b - x ≤ |x - b| := by
    rw [abs_sub_comm]
    exact le_abs_self _
  linarith

theorem s_pos (x : ℝ) : 0 < s x :=
  lt_of_lt_of_le (by norm_num [b] : (0 : ℝ) < 2 * b) (s_ge x)

theorem denom_pos (x : ℝ) : 0 < F_half_denominator x := by
  unfold F_half_denominator
  have h1 : 0 < s x ^ (-(1.5 : ℝ)) := Real.rpow_pos_of_pos (s_pos x) _
  have h2 : 0 < g * Real.exp (-x) := mul_pos g_pos (Real.exp_pos _)
  have h3 : (0 : ℝ) < 3 * Real.sqrt 2 := by positivity
  nlinarith

theorem F_half_pos (x : ℝ) : 0 < F_half_aymerich_humet x :=
  one_div_pos.mpr (denom_pos x)

theorem denom_strictAnti : StrictAnti F_half_denominator := by
  intro x y hxy
  unfold F_half_denominator
  have h15 : s x ^ (1.5 : ℝ) < s y ^ (1.5 : ℝ) :=
    Real.rpow_lt_rpow (s_pos x).le (s_strictMono hxy) (by norm_num)
  have hneg : s y ^ (-(1.5 : ℝ)) < s x ^ (-(1.5 : ℝ)) := by
    rw [Real.rpow_neg (s_pos x).le, Real.rpow_neg (s_pos y).le]
    exact inv_strictAnti₀ (Real.rpow_pos_of_pos (s_pos x) _) h15
  have hexp : Real.exp (-y) < Real.exp (-x) := Real.exp_lt_exp.mpr (by linarith)
  have h3 : (0 : ℝ) < 3 * Real.sqrt 2 := by positivity
  have h4 := mul_lt_mul_of_pos_left hneg h3
  have h5 := mul_lt_mul_of_pos_left hexp g_pos
  linarith

theorem F_half_strictMono : StrictMono F_half_aymerich_humet := by
  intro x y hxy
  unfold F_half_aymerich_humet
  exact one_div_lt_one_div_of_lt (denom_pos y) (denom_strictAnti hxy)

theorem F_half_le_exp_div (x : ℝ) : F_half_aymerich_humet x ≤ Real.exp x / g := by
  have hD : g * Real.exp (-x) ≤ F_half_denominator x := by
    unfold F_half_denominator
    have h1 : 0 ≤ 3 * Real.sqrt 2 * s x ^ (-(1.5 : ℝ)) := by
      have := Real.rpow_pos_of_pos (s_pos x) (-(1.5 : ℝ))
      positivity
    linarith
  have h2 : 0 < g * Real.exp (-x) := mul_pos g_pos (Real.exp_pos _)
  have h3 : F_half_aymerich_humet x ≤ 1 / (g * Real.exp (-x)) :=
    one_div_le_one_div_of_le h2 hD
  have h4 : 1 / (g * Real.exp (-x)) = Real.exp x / g := by
    rw [Real.exp_neg]
    field_simp
  rw [h4] at h3
  exact h3

theorem F_half_tendsto_zero :
    Filter.Tendsto F_half_aymerich_humet Filter.atBot (nhds 0) := by
  have hupper : Filter.Tendsto (fun x => Real.exp x / g) Filter.atBot (nhds 0) := by
    have := Real.tendsto_exp_atBot.div_const g
    simpa using this
  exact tendsto_of_tendsto_of_tendsto_of_le_of_le tendsto_const_nhds hupper
    (fun x => (F_half_pos x).le) (fun x => F_half_le_exp_div x)

end FermiDirac

/-- C9: the plain (numpy) Aymerich-Humet `F½` approximation is strictly
increasing on all of ℝ, tends to 0 at −∞, and its value at `x = 0` agrees
with the closed-form evaluation at the given constants to within 1e-12
(exactly, in the real model). -/
theorem F_half_plain_spec :
    StrictMono FermiDirac.F_half_aymerich_humet ∧
    Filter.Tendsto FermiDirac.F_half_aymerich_humet Filter.atBot (nhds 0) ∧
    |FermiDirac.F_half_aymerich_humet 0 - FermiDirac.F_half_zero_closed_form| ≤ 1/10^12 := by
  refine ⟨FermiDirac.F_half_strictMono, FermiDirac.F_half_tendsto_zero, ?_⟩
  have heq : FermiDirac.F_half_aymerich_humet 0 = FermiDirac.F_half_zero_closed_form := by
    unfold FermiDirac.F_half_aymerich_humet FermiDirac.F_half_denominator FermiDirac.s
      FermiDirac.phi FermiDirac.F_half_zero_closed_form FermiDirac.a FermiDirac.b
      FermiDirac.c FermiDirac.g
    norm_num
  rw [heq, sub_self, abs_zero]
  norm_num

/-! ### `fem_simulation/physical_parameters.py` with its default parameters

`scipy.optimize.brentq` is external library code; it is modelled by an
oracle `solver f a b : Option ℝ` together with the contract `BrentqSpec`:
a converged result is a root lying in the bracket (the solver's tolerance
is idealized to an exact root). -/

namespace PhysParams

/-- `scipy.constants.k` (CODATA 2018, exact). -/
def const_k : ℝ := 1.380649e-23

/-- `scipy.constants.e` (CODATA 2018, exact). -/
def const_e : ℝ := 1.602176634e-19

/-- `scipy.constants.m_e` (CODATA 2018). -/
def const_m_e : ℝ := 9.1093837015e-31

/-- `scipy.constants.h` (CODATA 2018, exact). -/
def const_h : ℝ := 6.62607015e-34

/-- Default `T = 300.0` K. -/
def T : ℝ := 300

/-- Default `Nd = 1e22` m⁻³. -/
def Nd : ℝ := 1e22

/-- Default `Na = 0.0`. -/
def Na : ℝ := 0

/-- Default `ni = 8.2e15` m⁻³. -/
def ni : ℝ := 8.2e15

/-- Default `Eg = 3.26` eV. -/
def Eg : ℝ := 3.26

/-- `mde = 0.42 * const.m_e`. -/
def mde : ℝ := 0.42 * const_m_e

/-- `mdh = 1.0 * const.m_e`. -/
def mdh : ℝ := 1.0 * const_m_e

/-- `kT = const.k * T / const.e` [eV]. -/
noncomputable def kT : ℝ := const_k * T / const_e

/-- `n0 = (Nd + np.sqrt(Nd**2 + 4 * ni**2)) / 2`. -/
noncomputable def n0 : ℝ := (Nd + Real.sqrt (Nd^2 + 4 * ni^2)) / 2

/-- `p0 = ni**2 / n0`. -/
noncomputable def p0 : ℝ := ni^2 / n0

/-- `Nc = gc * 2 * (2πm_de·kT/h²)^1.5` with `gc = 3`. -/
noncomputable def Nc : ℝ :=
  3 * 2 * (2 * Real.pi * mde * const_k * T / const_h^2) ^ (1.5 : ℝ)

/-- `Nv = gv * 2 * (2πm_dh·kT/h²)^1.5` with `gv = 1`. -/
noncomputable def Nv : ℝ :=
  1 * 2 * (2 * Real.pi * mdh * const_k * T / const_h^2) ^ (1.5 : ℝ)

/-- The ionized-donor sum over `zip(Ed, donor_ratios)` with
`Ed = [0.124, 0.066]`, `donor_ratios = [1.0, 1.88]`,
`sum_ratios_d = 1.0 + 1.88`. -/
noncomputable def Ndp (Ef : ℝ) : ℝ :=
  Nd * (1.0 / (1.0 + 1.88)) / (1 + 2 * Real.exp ((Ef - 0.124) / kT)) +
  Nd * (1.88 / (1.0 + 1.88)) / (1 + 2 * Real.exp ((Ef - 0.066) / kT))

/-- The ionized-acceptor sum: the default acceptor lists are empty, so the
loop contributes `0.0`. -/
def Nap (_Ef : ℝ) : ℝ := 0

/-- `charge_neutrality_eq` (the log-difference form). -/
noncomputable def chargeNeutralityEq (Ef : ℝ) : ℝ :=
  Real.log (Nv * FermiDirac.F_half_aymerich_humet ((Eg - Ef) / kT) + Ndp Ef) -
  Real.log (Nc * FermiDirac.F_half_aymerich_humet (Ef / kT) + Nap Ef)

/-- Contract of an ideal bracketed root-finder (`scipy.optimize.brentq`):
a converged result lies in the bracket and is a root. -/
def BrentqSpec (solver : (ℝ → ℝ) → ℝ → ℝ → Option ℝ) : Prop :=
  ∀ f a b x, solver f a b = some x → x ∈ Set.Icc a b ∧ f x = 0

/-- `calc_fermi_level`: run the root-finder on the charge-neutrality
equation over `[kT, Eg - kT]`; non-convergence raises `RuntimeError`. -/
noncomputable def calc_fermi_level (solver : (ℝ → ℝ) → ℝ → ℝ → Option ℝ) :
    Except String ℝ :=
  match solver chargeNeutralityEq kT (Eg - kT) with
  | some x => .ok x
  | none => .error "Fermi level calculation did not converge."

theorem le_rpow_three_halves {x q : ℝ} (hx : 0 ≤ x) (hq : 0 ≤ q) (h : q^2 ≤ x^3) :
    q ≤ x ^ (1.5 : ℝ) := by
  have hsq : (x ^ (1.5 : ℝ))^2 = x^3 := by
    rw [← Real.rpow_natCast (x ^ (1.5 : ℝ)) 2, ← Real.rpow_mul hx, ← Real.rpow_natCast x 3]
    norm_num
  by_contra hcon
  push_neg at hcon
  have h2 : (x ^ (1.5 : ℝ))^2 < q^2 :=
    pow_lt_pow_left hcon (Real.rpow_nonneg hx _) (by norm_num)
  rw [hsq] at h2
  linarith

theorem rpow_three_halves_le {x q : ℝ} (hx : 0 ≤ x) (hq : 0 ≤ q) (h : x^3 ≤ q^2) :
    x ^ (1.5 : ℝ) ≤ q := by
  have hsq : (x ^ (1.5 : ℝ))^2 = x^3 := by
    rw [← Real.rpow_natCast (x ^ (1.5 : ℝ)) 2, ← Real.rpow_mul hx, ← Real.rpow_natCast x 3]
    norm_num
  by_contra hcon
  push_neg at hcon
  have h2 : q^2 < (x ^ (1.5 : ℝ))^2 := pow_lt_pow_left hcon hq (by norm_num)
  rw [hsq] at h2
  linarith

theorem kT_bounds : (0.02585 : ℝ) ≤ kT ∧ kT ≤ 0.02586 := by
  unfold kT const_k const_e T
  norm_num

theorem kT_pos : (0 : ℝ) < kT := lt_of_lt_of_le (by norm_num) kT_bounds.1

theorem sqrt_two_le : Real.sqrt 2 ≤ 1.41422 := by
  rw [show (1.41422 : ℝ) = Real.sqrt (1.41422^2) from (Real.sqrt_sq (by norm_num)).symm]
  exact Real.sqrt_le_sqrt (by norm_num)

theorem sqrt_pi_ge : (1.7724 : ℝ) ≤ Real.sqrt Real.pi := by
  rw [show (1.7724 : ℝ) = Real.sqrt (1.7724^2) from (Real.sqrt_sq (by norm_num)).symm]
  exact Real.sqrt_le_sqrt (le_of_lt (lt_of_le_of_lt (by norm_num) Real.pi_gt_3141592))

theorem sqrt_pi_le : Real.sqrt Real.pi ≤ 1.77246 := by
  rw [show (1.77246 : ℝ) = Real.sqrt (1.77246^2) from (Real.sqrt_sq (by norm_num)).symm]
  exact Real.sqrt_le_sqrt (le_of_lt (lt_of_lt_of_le Real.pi_lt_3141593 (by norm_num)))

theorem g_ge : (1.1283 : ℝ) ≤ FermiDirac.g := by
  unfold FermiDirac.g
  rw [le_div_iff (Real.sqrt_pos.mpr Real.pi_pos)]
  calc (1.1283 : ℝ) * Real.sqrt Real.pi ≤ 1.1283 * 1.77246 :=
        mul_le_mul_of_nonneg_left sqrt_pi_le (by norm_num)
    _ ≤ 2 := by norm_num

theorem g_le : FermiDirac.g ≤ 1.1285 := by
  unfold FermiDirac.g
  rw [div_le_iff (Real.sqrt_pos.mpr Real.pi_pos)]
  calc (2 : ℝ) ≤ 1.1285 * 1.7724 := by norm_num
    _ ≤ 1.1285 * Real.sqrt Real.pi := mul_le_mul_of_nonneg_left sqrt_pi_ge (by norm_num)

theorem exp_one_ge_two : (2 : ℝ) ≤ Real.exp 1 :=
  le_of_lt (lt_of_le_of_lt (by norm_num) Real.exp_one_gt_d9)

theorem exp_125_ge : (10^9 : ℝ) ≤ Real.exp 125 := by
  have h1 : Real.exp 125 = Real.exp 1 ^ (125 : ℕ) := by
    rw [← Real.exp_nat_mul]
    norm_num
  rw [h1]
  calc (10^9 : ℝ) ≤ 2 ^ (125 : ℕ) := by norm_num
    _ ≤ Real.exp 1 ^ (125 : ℕ) := pow_le_pow_left (by norm_num) exp_one_ge_two 125

theorem exp_neg_le_of_ge (x : ℝ) (hx : 125 ≤ x) : Real.exp (-x) ≤ 1/10^9 := by
  have h1 : Real.exp (-x) ≤ Real.exp (-125) := Real.exp_le_exp.mpr (by linarith)
  have h2 : Real.exp (-125) = (Real.exp 125)⁻¹ := by
    rw [← Real.exp_neg]
  rw [h2] at h1
  have h3 : (Real.exp 125)⁻¹ ≤ (10^9 : ℝ)⁻¹ :=
    inv_le_inv_of_le (by norm_num) exp_125_ge
  calc Real.exp (-x) ≤ (Real.exp 125)⁻¹ := h1
    _ ≤ (10^9 : ℝ)⁻¹ := h3
    _ = 1/10^9 := by norm_num

theorem F_half_ge_333 (x : ℝ) (hx : 125 ≤ x) :
    (333 : ℝ) ≤ FermiDirac.F_half_aymerich_humet x := by
  have hs : (127 : ℝ) ≤ FermiDirac.s x := by
    have h1 : |x - FermiDirac.b| ≤ FermiDirac.phi |x - FermiDirac.b| :=
      (FermiDirac.lt_phi _ (abs_nonneg _)).le
    have h2 : (0 : ℝ) ≤ |x - FermiDirac.b| := abs_nonneg _
    have hb : FermiDirac.b = 2.13 := rfl
    unfold FermiDirac.s
    rw [hb] at h1 h2 ⊢
    linarith
  have h15 : (1431 : ℝ) ≤ FermiDirac.s x ^ (1.5 : ℝ) := by
    have ha : (127 : ℝ) ^ (1.5 : ℝ) ≤ FermiDirac.s x ^ (1.5 : ℝ) :=
      Real.rpow_le_rpow (by norm_num) hs (by norm_num)
    have hb : (1431 : ℝ) ≤ (127 : ℝ) ^ (1.5 : ℝ) :=
      le_rpow_three_halves (by norm_num) (by norm_num) (by norm_num)
    linarith
  have hneg : FermiDirac.s x ^ (-(1.5 : ℝ)) ≤ 1/1431 := by
    rw [Real.rpow_neg (FermiDirac.s_pos x).le]
    have := inv_le_inv_of_le (by norm_num : (0 : ℝ) < 1431) h15
    calc (FermiDirac.s x ^ (1.5 : ℝ))⁻¹ ≤ (1431 : ℝ)⁻¹ := this
      _ = 1/1431 := by norm_num
  have hterm1 : 3 * Real.sqrt 2 * FermiDirac.s x ^ (-(1.5 : ℝ)) ≤ 3 * 1.41422 * (1/1431) := by
    have hrp : (0 : ℝ) ≤ FermiDirac.s x ^ (-(1.5 : ℝ)) :=
      (Real.rpow_pos_of_pos (FermiDirac.s_pos x) _).le
    have h1 : 3 * Real.sqrt 2 ≤ 3 * 1.41422 := by linarith [sqrt_two_le]
    have h2 : (0 : ℝ) ≤ 3 * Real.sqrt 2 := by positivity
    exact mul_le_mul h1 hneg hrp (by norm_num)
  have hterm2 : FermiDirac.g * Real.exp (-x) ≤ 1.1285 * (1/10^9) :=
    mul_le_mul g_le (exp_neg_le_of_ge x hx) (Real.exp_pos _).le (by norm_num)
  have hD : FermiDirac.F_half_denominator x ≤ 3 * 1.41422 * (1/1431) + 1.1285 * (1/10^9) := by
    unfold FermiDirac.F_half_denominator
    linarith
  have hDpos := FermiDirac.denom_pos x
  unfold FermiDirac.F_half_aymerich_humet
  rw [le_div_iff hDpos]
  calc (333 : ℝ) * FermiDirac.F_half_denominator x ≤
        333 * (3 * 1.41422 * (1/1431) + 1.1285 * (1/10^9)) := by
        apply mul_le_mul_of_nonneg_left hD (by norm_num)
    _ ≤ 1 := by norm_num

theorem F_half_one_le : FermiDirac.F_half_aymerich_humet 1 ≤ 2.41 := by
  have h1 := FermiDirac.F_half_le_exp_div 1
  have h2 : Real.exp 1 / FermiDirac.g ≤ 2.7182818286 / 1.1283 :=
    div_le_div (by norm_num) Real.exp_one_lt_d9.le (by norm_num) g_ge
  calc FermiDirac.F_half_aymerich_humet 1 ≤ Real.exp 1 / FermiDirac.g := h1
    _ ≤ 2.7182818286 / 1.1283 := h2
    _ ≤ 2.41 := by norm_num

theorem Ndp_nonneg (Ef : ℝ) : 0 ≤ Ndp Ef := by
  unfold Ndp Nd
  have h1 : (0:ℝ) < 1 + 2 * Real.exp ((Ef - 0.124) / kT) := by positivity
  have h2 : (0:ℝ) < 1 + 2 * Real.exp ((Ef - 0.066) / kT) := by positivity
  positivity

theorem Ndp_le_Nd (Ef : ℝ) : Ndp Ef ≤ Nd := by
  unfold Ndp
  have hNd : (0:ℝ) ≤ Nd := by norm_num [Nd]
  have h1 : (1:ℝ) ≤ 1 + 2 * Real.exp ((Ef - 0.124) / kT) := by
    have := Real.exp_pos ((Ef - 0.124) / kT)
    linarith
  have h2 : (1:ℝ) ≤ 1 + 2 * Real.exp ((Ef - 0.066) / kT) := by
    have := Real.exp_pos ((Ef - 0.066) / kT)
    linarith
  have t1 : Nd * (1.0 / (1.0 + 1.88)) / (1 + 2 * Real.exp ((Ef - 0.124) / kT)) ≤
      Nd * (1.0 / (1.0 + 1.88)) :=
    div_le_self (mul_nonneg hNd (by norm_num)) h1
  have t2 : Nd * (1.88 / (1.0 + 1.88)) / (1 + 2 * Real.exp ((Ef - 0.066) / kT)) ≤
      Nd * (1.88 / (1.0 + 1.88)) :=
    div_le_self (mul_nonneg hNd (by norm_num)) h2
  have hsum : Nd * (1.0 / (1.0 + 1.88)) + Nd * (1.88 / (1.0 + 1.88)) = Nd := by ring
  linarith

theorem arg_ge_125 : (125:ℝ) ≤ (Eg - kT) / kT := by
  rw [le_div_iff kT_pos]
  have := kT_bounds.2
  unfold Eg
  linarith

theorem kT_div_self : kT / kT = 1 := div_self kT_pos.ne'

theorem Yv_eq : 2 * Real.pi * mdh * const_k * T / const_h^2 =
    Real.pi * (2 * mdh * const_k * T / const_h^2) := by ring

theorem Yv_lower : (5.399e16 : ℝ) ≤ 2 * Real.pi * mdh * const_k * T / const_h^2 := by
  rw [Yv_eq]
  have hC : (1.7187e16:ℝ) ≤ 2 * mdh * const_k * T / const_h^2 := by
    unfold mdh const_m_e const_k T const_h
    norm_num
  calc (5.399e16:ℝ) ≤ 3.141592 * 1.7187e16 := by norm_num
    _ ≤ Real.pi * (2 * mdh * const_k * T / const_h^2) :=
      mul_le_mul Real.pi_gt_3141592.le hC (by norm_num) Real.pi_pos.le

theorem Yv_upper : 2 * Real.pi * mdh * const_k * T / const_h^2 ≤ 5.3998e16 := by
  rw [Yv_eq]
  have hC : 2 * mdh * const_k * T / const_h^2 ≤ 1.7188e16 := by
    unfold mdh const_m_e const_k T const_h
    norm_num
  have hC0 : (0:ℝ) ≤ 2 * mdh * const_k * T / const_h^2 := by
    unfold mdh const_m_e const_k T const_h
    norm_num
  calc Real.pi * (2 * mdh * const_k * T / const_h^2) ≤ 3.141593 * 1.7188e16 :=
      mul_le_mul Real.pi_lt_3141593.le hC hC0 (by norm_num)
    _ ≤ 5.3998e16 := by norm_num

theorem Nv_bounds : (2.5e25 : ℝ) ≤ Nv ∧ Nv ≤ 2.518e25 := by
  have hY0 : (0:ℝ) ≤ 2 * Real.pi * mdh * const_k * T / const_h^2 :=
    le_trans (by norm_num) Yv_lower
  constructor
  · have hq : (1.25e25 : ℝ) ≤ (2 * Real.pi * mdh * const_k * T / const_h^2) ^ (1.5:ℝ) := by
      apply le_rpow_three_halves hY0 (by norm_num)
      calc ((1.25e25:ℝ))^2 ≤ (5.399e16:ℝ)^3 := by norm_num
        _ ≤ (2 * Real.pi * mdh * const_k * T / const_h^2)^3 :=
          pow_le_pow_left (by norm_num) Yv_lower 3
    unfold Nv
    linarith
  · have hq : (2 * Real.pi * mdh * const_k * T / const_h^2) ^ (1.5:ℝ) ≤ 1.259e25 := by
      apply rpow_three_halves_le hY0 (by norm_num)
      calc (2 * Real.pi * mdh * const_k * T / const_h^2)^3 ≤ (5.3998e16:ℝ)^3 :=
          pow_le_pow_left hY0 Yv_upper 3
        _ ≤ ((1.259e25:ℝ))^2 := by norm_num
    unfold Nv
    linarith

theorem Yc_eq : 2 * Real.pi * mde * const_k * T / const_h^2 =
    Real.pi * (2 * mde * const_k * T / const_h^2) := by ring

theorem Yc_lower : (2.2678e16 : ℝ) ≤ 2 * Real.pi * mde * const_k * T / const_h^2 := by
  rw [Yc_eq]
  have hC : (7.2187e15:ℝ) ≤ 2 * mde * const_k * T / const_h^2 := by
    unfold mde const_m_e const_k T const_h
    norm_num
  calc (2.2678e16:ℝ) ≤ 3.141592 * 7.2187e15 := by norm_num
    _ ≤ Real.pi * (2 * mde * const_k * T / const_h^2) :=
      mul_le_mul Real.pi_gt_3141592.le hC (by norm_num) Real.pi_pos.le

theorem Yc_upper : 2 * Real.pi * mde * const_k * T / const_h^2 ≤ 2.26786e16 := by
  rw [Yc_eq]
  have hC : 2 * mde * const_k * T / const_h^2 ≤ 7.2188e15 := by
    unfold mde const_m_e const_k T const_h
    norm_num
  have hC0 : (0:ℝ) ≤ 2 * mde * const_k * T / const_h^2 := by
    unfold mde const_m_e const_k T const_h
    norm_num
  calc Real.pi * (2 * mde * const_k * T / const_h^2) ≤ 3.141593 * 7.2188e15 :=
      mul_le_mul Real.pi_lt_3141593.le hC hC0 (by norm_num)
    _ ≤ 2.26786e16 := by norm_num

theorem Nc_bounds : (2.0484e25 : ℝ) ≤ Nc ∧ Nc ≤ 2.0502e25 := by
  have hY0 : (0:ℝ) ≤ 2 * Real.pi * mde * const_k * T / const_h^2 :=
    le_trans (by norm_num) Yc_lower
  constructor
  · have hq : (3.414e24 : ℝ) ≤ (2 * Real.pi * mde * const_k * T / const_h^2) ^ (1.5:ℝ) := by
      apply le_rpow_three_halves hY0 (by norm_num)
      calc ((3.414e24:ℝ))^2 ≤ (2.2678e16:ℝ)^3 := by norm_num
        _ ≤ (2 * Real.pi * mde * const_k * T / const_h^2)^3 :=
          pow_le_pow_left (by norm_num) Yc_lower 3
    unfold Nc
    linarith
  · have hq : (2 * Real.pi * mde * const_k * T / const_h^2) ^ (1.5:ℝ) ≤ 3.417e24 := by
      apply rpow_three_halves_le hY0 (by norm_num)
      calc (2 * Real.pi * mde * const_k * T / const_h^2)^3 ≤ (2.26786e16:ℝ)^3 :=
          pow_le_pow_left hY0 Yc_upper 3
        _ ≤ ((3.417e24:ℝ))^2 := by norm_num
    unfold Nc
    linarith

theorem Nv_pos : (0:ℝ) < Nv := lt_of_lt_of_le (by norm_num) Nv_bounds.1

theorem Nc_pos : (0:ℝ) < Nc := lt_of_lt_of_le (by norm_num) Nc_bounds.1

theorem cne_kT_pos : 0 < chargeNeutralityEq kT := by
  unfold chargeNeutralityEq Nap
  rw [kT_div_self]
  have hF1 : FermiDirac.F_half_aymerich_humet 1 ≤ 2.41 := F_half_one_le
  have hF1pos := FermiDirac.F_half_pos 1
  have hFbig : (333:ℝ) ≤ FermiDirac.F_half_aymerich_humet ((Eg - kT) / kT) :=
    F_half_ge_333 _ arg_ge_125
  have hNdp := Ndp_nonneg kT
  have harg2pos : 0 < Nc * FermiDirac.F_half_aymerich_humet 1 + 0 := by
    have := mul_pos Nc_pos hF1pos
    linarith
  have h2 : Nc * FermiDirac.F_half_aymerich_humet 1 ≤ 2.0502e25 * 2.41 :=
    mul_le_mul Nc_bounds.2 hF1 hF1pos.le (by norm_num)
  have h1 : (2.5e25:ℝ) * 333 ≤ Nv * FermiDirac.F_half_aymerich_humet ((Eg - kT) / kT) :=
    mul_le_mul Nv_bounds.1 hFbig (by norm_num) (le_trans (by norm_num) Nv_bounds.1)
  have hlt : Nc * FermiDirac.F_half_aymerich_humet 1 + 0 <
      Nv * FermiDirac.F_half_aymerich_humet ((Eg - kT) / kT) + Ndp kT := by
    have hnum : (2.0502e25:ℝ) * 2.41 < 2.5e25 * 333 := by norm_num
    linarith
  have := Real.log_lt_log harg2pos hlt
  linarith

theorem eg_sub_div : (Eg - (Eg - kT)) / kT = 1 := by
  rw [show Eg - (Eg - kT) = kT from by ring]
  exact kT_div_self

theorem cne_top_neg : chargeNeutralityEq (Eg - kT) < 0 := by
  unfold chargeNeutralityEq Nap
  rw [eg_sub_div]
  have hF1 : FermiDirac.F_half_aymerich_humet 1 ≤ 2.41 := F_half_one_le
  have hF1pos := FermiDirac.F_half_pos 1
  have hFbig : (333:ℝ) ≤ FermiDirac.F_half_aymerich_humet ((Eg - kT) / kT) :=
    F_half_ge_333 _ arg_ge_125
  have hNdp0 := Ndp_nonneg (Eg - kT)
  have hNdp1 : Ndp (Eg - kT) ≤ 1e22 := le_trans (Ndp_le_Nd _) (by norm_num [Nd])
  have harg1pos : 0 < Nv * FermiDirac.F_half_aymerich_humet 1 + Ndp (Eg - kT) := by
    have := mul_pos Nv_pos hF1pos
    linarith
  have h1 : Nv * FermiDirac.F_half_aymerich_humet 1 ≤ 2.518e25 * 2.41 :=
    mul_le_mul Nv_bounds.2 hF1 hF1pos.le (by norm_num)
  have h2 : (2.0484e25:ℝ) * 333 ≤ Nc * FermiDirac.F_half_aymerich_humet ((Eg - kT) / kT) :=
    mul_le_mul Nc_bounds.1 hFbig (by norm_num) (le_trans (by norm_num) Nc_bounds.1)
  have hlt : Nv * FermiDirac.F_half_aymerich_humet 1 + Ndp (Eg - kT) <
      Nc * FermiDirac.F_half_aymerich_humet ((Eg - kT) / kT) + 0 := by
    have hnum : (2.518e25:ℝ) * 2.41 + 1e22 < 2.0484e25 * 333 := by norm_num
    linarith
  have := Real.log_lt_log harg1pos hlt
  linarith

theorem s_continuous : Continuous FermiDirac.s := by
  unfold FermiDirac.s FermiDirac.phi
  have hinner : Continuous fun x : ℝ => |x - FermiDirac.b| ^ FermiDirac.c + FermiDirac.a :=
    ((continuous_id.sub continuous_const).abs.rpow_const
      (fun _ => Or.inr FermiDirac.c_pos.le)).add continuous_const
  have hpos : ∀ x : ℝ, |x - FermiDirac.b| ^ FermiDirac.c + FermiDirac.a ≠ 0 := by
    intro x
    have h1 : (0:ℝ) ≤ |x - FermiDirac.b| ^ FermiDirac.c := Real.rpow_nonneg (abs_nonneg _) _
    have h2 := FermiDirac.a_pos
    exact ne_of_gt (by linarith)
  exact (continuous_const.add continuous_id).add
    (hinner.rpow_const (fun x => Or.inl (hpos x)))

theorem denom_continuous : Continuous FermiDirac.F_half_denominator := by
  unfold FermiDirac.F_half_denominator
  exact (continuous_const.mul (s_continuous.rpow_const
      (fun x => Or.inl (FermiDirac.s_pos x).ne'))).add
    (continuous_const.mul (Real.continuous_exp.comp continuous_neg))

theorem F_half_continuous : Continuous FermiDirac.F_half_aymerich_humet := by
  unfold FermiDirac.F_half_aymerich_humet
  exact continuous_const.div denom_continuous (fun x => (FermiDirac.denom_pos x).ne')

theorem Ndp_continuous : Continuous Ndp := by
  unfold Ndp
  have h1 : Continuous fun Ef : ℝ => 1 + 2 * Real.exp ((Ef - 0.124) / kT) :=
    continuous_const.add (continuous_const.mul
      (Real.continuous_exp.comp ((continuous_id.sub continuous_const).div_const kT)))
  have h2 : Continuous fun Ef : ℝ => 1 + 2 * Real.exp ((Ef - 0.066) / kT) :=
    continuous_const.add (continuous_const.mul
      (Real.continuous_exp.comp ((continuous_id.sub continuous_const).div_const kT)))
  have hne1 : ∀ Ef : ℝ, 1 + 2 * Real.exp ((Ef - 0.124) / kT) ≠ 0 := by
    intro Ef
    have := Real.exp_pos ((Ef - 0.124) / kT)
    positivity
  have hne2 : ∀ Ef : ℝ, 1 + 2 * Real.exp ((Ef - 0.066) / kT) ≠ 0 := by
    intro Ef
    have := Real.exp_pos ((Ef - 0.066) / kT)
    positivity
  exact (continuous_const.div h1 hne1).add (continuous_const.div h2 hne2)

theorem Nap_continuous : Continuous Nap := by
  unfold Nap
  exact continuous_const

theorem arg1_pos (Ef : ℝ) :
    0 < Nv * FermiDirac.F_half_aymerich_humet ((Eg - Ef) / kT) + Ndp Ef := by
  have h1 := mul_pos Nv_pos (FermiDirac.F_half_pos ((Eg - Ef) / kT))
  have h2 := Ndp_nonneg Ef
  linarith

theorem arg2_pos (Ef : ℝ) :
    0 < Nc * FermiDirac.F_half_aymerich_humet (Ef / kT) + Nap Ef := by
  have h1 := mul_pos Nc_pos (FermiDirac.F_half_pos (Ef / kT))
  unfold Nap
  linarith

theorem cne_continuous : Continuous chargeNeutralityEq := by
  unfold chargeNeutralityEq
  apply Continuous.sub
  · apply Continuous.log
    · exact (continuous_const.mul (F_half_continuous.comp
        ((continuous_const.sub continuous_id).div_const kT))).add Ndp_continuous
    · intro Ef
      exact (arg1_pos Ef).ne'
  · apply Continuous.log
    · exact (continuous_const.mul (F_half_continuous.comp
        (continuous_id.div_const kT))).add Nap_continuous
    · intro Ef
      exact (arg2_pos Ef).ne'

theorem cne_exists_root : ∃ Ef ∈ Set.Ioo kT (Eg - kT), chargeNeutralityEq Ef = 0 := by
  have hab : kT ≤ Eg - kT := by
    have := kT_bounds.2
    unfold Eg
    linarith
  have hsub := intermediate_value_Ioo' hab cne_continuous.continuousOn
  have hmem : (0:ℝ) ∈ Set.Ioo (chargeNeutralityEq (Eg - kT)) (chargeNeutralityEq kT) :=
    ⟨cne_top_neg, cne_kT_pos⟩
  obtain ⟨Ef, hEf, hroot⟩ := hsub hmem
  exact ⟨Ef, hEf, hroot⟩

/-- C8: with the default parameters, `n0 = (Nd + √(Nd² + 4·ni²))/2` and
`p0 = ni²/n0`; `calc_fermi_level` brackets the charge-neutrality equation
over `[kT, Eg - kT]`, and any converged result of a solver satisfying the
`brentq` contract lies strictly inside `(kT, Eg - kT)` and is an exact root
(the idealization of "within solver tolerance of zero"); such a root exists;
and non-convergence raises (`RuntimeError`, modelled as `Except.error`). -/
theorem physical_parameters_spec :
    n0 = (Nd + Real.sqrt (Nd^2 + 4 * ni^2)) / 2 ∧
    p0 = ni^2 / n0 ∧
    (∀ solver, BrentqSpec solver →
      ∀ Ef, calc_fermi_level solver = Except.ok Ef →
        Ef ∈ Set.Ioo kT (Eg - kT) ∧ chargeNeutralityEq Ef = 0) ∧
    (∀ solver, solver chargeNeutralityEq kT (Eg - kT) = none →
      calc_fermi_level solver =
        Except.error "Fermi level calculation did not converge.") ∧
    (∃ Ef ∈ Set.Ioo kT (Eg - kT), chargeNeutralityEq Ef = 0) := by
  refine ⟨rfl, rfl, ?_, ?_, cne_exists_root⟩
  · intro solver hspec Ef hok
    unfold calc_fermi_level at hok
    cases hs : solver chargeNeutralityEq kT (Eg - kT) with
    | none =>
      rw [hs] at hok
      simp at hok
    | some x =>
      rw [hs] at hok
      simp only [Except.ok.injEq] at hok
      subst hok
      obtain ⟨hIcc, hroot⟩ := hspec chargeNeutralityEq kT (Eg - kT) x hs
      have hne1 : x ≠ kT := by
        intro he
        rw [he] at hroot
        exact (ne_of_gt cne_kT_pos) hroot
      have hne2 : x ≠ Eg - kT := by
        intro he
        rw [he] at hroot
        exact (ne_of_lt cne_top_neg) hroot
      exact ⟨⟨lt_of_le_of_ne hIcc.1 (Ne.symm hne1), lt_of_le_of_ne hIcc.2 hne2⟩, hroot⟩
  · intro solver hnone
    unfold calc_fermi_level
    rw [hnone]

end PhysParams

end FemSim
